import Mathlib

/-!
Shallow embedding of the proposal-processing and invoicing core of the
Leases-Licensing repository (dbca-wa/Leases-Licensing), together with proofs
settling the specification claims about it.

Monetary values stored in Django DecimalField columns are embedded as exact
rationals; dates as proleptic Gregorian calendar dates with ordinal-day
conversions matching the Python datetime library; database tables as lists of
rows; fallible operations as Except values; transaction rollback as returning
the original state on error.
-/

namespace LeasesLicensing

/-! ## Decimal arithmetic (invoicing/models.py)

Django DecimalField values and the Decimal("0.01") quantization used by
Invoice.balance.  Python Decimal uses ROUND_HALF_EVEN in the default
context. -/

/-- Round a rational to the nearest integer, ties to even
(the ROUND_HALF_EVEN mode of the default Python Decimal context). -/
def roundHalfEven (q : ℚ) : ℤ :=
  let f : ℤ := ⌊q⌋
  let frac : ℚ := q - (f : ℚ)
  if frac < 1 / 2 then f
  else if 1 / 2 < frac then f + 1
  else if f % 2 = 0 then f else f + 1

/-- Decimal.quantize(Decimal("0.01")): round to two decimal places. -/
def quantize2 (q : ℚ) : ℚ := (roundHalfEven (q * 100) : ℚ) / 100

/-- A rational that is an exact two-decimal-place decimal, which is what a
DecimalField(decimal_places=2) column stores. -/
def TwoDP (q : ℚ) : Prop := ∃ n : ℤ, q = (n : ℚ) / 100

namespace Invoicing

/-- Invoice.INVOICE_STATUS_CHOICES from invoicing/models.py (the api module
additionally references a pending-upload state on the wider model). -/
inductive InvoiceStatus
  | pendingUploadOracleInvoice
  | unpaid
  | paid
  | void
deriving DecidableEq

/-- The fields of Invoice relevant to the ledger: amount (DecimalField 2dp)
and status. -/
structure Invoice where
  amount : ℚ
  status : InvoiceStatus
deriving DecidableEq

/-- An InvoiceTransaction row: immutable credit and debit DecimalField(9, 2)
columns, both defaulting to 0.00. -/
structure InvoiceTransaction where
  credit : ℚ
  debit : ℚ
deriving DecidableEq

/-- An invoice together with its transaction rows (related_name
"transactions"), in creation order. -/
structure InvoiceLedger where
  invoice : Invoice
  transactions : List InvoiceTransaction
deriving DecidableEq

/-- The Django Sum aggregate over a column: none when there are no rows. -/
def aggSum (f : InvoiceTransaction → ℚ) (ts : List InvoiceTransaction) : Option ℚ :=
  match ts with
  | [] => none
  | _ => some ((ts.map f).sum)

/-- SQL Coalesce: the first operand unless it is null. -/
def coalesce (o : Option ℚ) (d : ℚ) : ℚ := o.getD d

/-- Invoice.balance: amount plus the Coalesce-defaulted credit sum minus the
Coalesce-defaulted debit sum, quantized to Decimal("0.01"). -/
def balance (l : InvoiceLedger) : ℚ :=
  let credit := coalesce (aggSum (fun t => t.credit) l.transactions) 0
  let debit := coalesce (aggSum (fun t => t.debit) l.transactions) 0
  quantize2 (l.invoice.amount + credit - debit)

/-- Outcome of the record_transaction endpoint of InvoiceViewSet. -/
inductive RecordTransactionResult
  | permissionDenied
  | invalidData
  | ok
deriving DecidableEq

/-- Serializer validity of one DecimalField(max_digits=9, decimal_places=2)
value: an exact two-decimal-place decimal of at most nine digits. -/
def validDecimal92 (q : ℚ) : Bool :=
  (q * 100).den == 1 && (q * 100).num.natAbs ≤ 999999999

/-- InvoiceViewSet.record_transaction: requires a finance officer, validates
the serializer data, appends the transaction row, and when the resulting
balance is exactly 0.00 sets the invoice status to paid. -/
def record_transaction (isFinanceOfficer : Bool) (credit debit : ℚ)
    (l : InvoiceLedger) : RecordTransactionResult × InvoiceLedger :=
  if isFinanceOfficer = false then (.permissionDenied, l)
  else if (validDecimal92 credit && validDecimal92 debit) = false then
    (.invalidData, l)
  else
    let l1 : InvoiceLedger :=
      { l with transactions := l.transactions ++ [⟨credit, debit⟩] }
    if balance l1 = 0 then
      (.ok, { l1 with invoice := { l1.invoice with status := .paid } })
    else
      (.ok, l1)

/-! ### Payment-success callback (invoicing/api.py, PayInvoiceSuccessCallbackView) -/

/-- An Invoice row as seen by the payment callback: correlation uuid, amount,
status and the date_paid stamp (a timestamp, none until paid). -/
structure CallbackInvoice where
  uuid : ℕ
  amount : ℚ
  status : InvoiceStatus
  datePaid : Option ℕ
deriving DecidableEq

/-- An InvoiceTransaction row created by the callback (credit defaults to
0.00). -/
structure CallbackTransaction where
  invoiceUuid : ℕ
  credit : ℚ
  debit : ℚ
deriving DecidableEq

/-- The invoice and transaction tables the callback touches. -/
structure LedgerDB where
  invoices : List CallbackInvoice
  transactions : List CallbackTransaction
deriving DecidableEq

def HTTP_200_OK : ℕ := 200

def HTTP_400_BAD_REQUEST : ℕ := 400

/-- PayInvoiceSuccessCallbackView.get: when the uuid identifies an invoice in
status unpaid, create a debit transaction for the invoice amount, set the
status to paid, stamp date_paid with the current time and return 200;
otherwise change nothing and return 400. -/
def pay_invoice_success_callback (uuid : Option ℕ) (now : ℕ) (db : LedgerDB) :
    ℕ × LedgerDB :=
  match uuid with
  | none => (HTTP_400_BAD_REQUEST, db)
  | some u =>
    if (db.invoices.filter (fun i =>
        decide (i.uuid = u) && decide (i.status = .unpaid))).isEmpty then
      (HTTP_400_BAD_REQUEST, db)
    else
      match db.invoices.find? (fun i => decide (i.uuid = u)) with
      | none => (HTTP_400_BAD_REQUEST, db)
      | some inv =>
        let invoices' := db.invoices.map (fun i =>
          if i.uuid = u then { i with status := .paid, datePaid := some now }
          else i)
        (HTTP_200_OK,
          { invoices := invoices',
            transactions := db.transactions ++ [⟨u, 0, inv.amount⟩] })

end Invoicing

/-! ## Calendar dates (Python datetime.date and dateutil.relativedelta) -/

/-- A proleptic Gregorian calendar date, as in datetime.date. -/
structure Date where
  year : ℕ
  month : ℕ
  day : ℕ
deriving DecidableEq

/-- Gregorian leap-year rule. -/
def isLeap (y : ℕ) : Bool :=
  (y % 4 == 0 && y % 100 != 0) || (y % 400 == 0)

/-- Number of days in a month of a given year. -/
def daysInMonth (y m : ℕ) : ℕ :=
  if m = 2 then (if isLeap y then 29 else 28)
  else if m = 4 ∨ m = 6 ∨ m = 9 ∨ m = 11 then 30
  else 31

/-- Days strictly before January 1 of the given year, counted from the
proleptic year 1 (as in the CPython datetime implementation). -/
def daysBeforeYear (y : ℕ) : ℕ :=
  365 * (y - 1) + (y - 1) / 4 - (y - 1) / 100 + (y - 1) / 400

/-- Days in the given year strictly before the first day of the given
month. -/
def daysBeforeMonth (y m : ℕ) : ℕ :=
  ((List.range (m - 1)).map (fun i => daysInMonth y (i + 1))).sum

/-- datetime.date.toordinal: day number with 0001-01-01 mapping to 1. -/
def toOrdinal (d : Date) : ℕ :=
  daysBeforeYear d.year + daysBeforeMonth d.year d.month + d.day

/-- datetime.date.fromordinal: inverse of toOrdinal, following the CPython
ord-to-ymd algorithm over the 400/100/4/1-year Gregorian cycles. -/
def fromOrdinal (n : ℕ) : Date :=
  let n0 := n - 1
  let n400 := n0 / 146097
  let r400 := n0 % 146097
  let n100 := r400 / 36524
  let r100 := r400 % 36524
  let n4 := r100 / 1461
  let r4 := r100 % 1461
  let n1 := r4 / 365
  let r1 := r4 % 365
  let year := n400 * 400 + n100 * 100 + n4 * 4 + n1 + 1
  if n1 = 4 ∨ n100 = 4 then
    ⟨year - 1, 12, 31⟩
  else
    let m := ((List.range 12).filter
      (fun i => decide (daysBeforeMonth year (i + 1) ≤ r1))).length
    ⟨year, m, r1 - daysBeforeMonth year m + 1⟩

/-- date + timedelta(days=k). -/
def addDays (d : Date) (k : ℕ) : Date := fromOrdinal (toOrdinal d + k)

/-- Python date comparison (tuple order on year, month, day). -/
def dateLt (a b : Date) : Bool :=
  decide (a.year < b.year) ||
    (decide (a.year = b.year) &&
      (decide (a.month < b.month) ||
        (decide (a.month = b.month) && decide (a.day < b.day))))

/-- Python date less-or-equal comparison. -/
def dateLe (a b : Date) : Bool := dateLt a b || decide (a = b)

/-- date + relativedelta(weeks=1). -/
def addWeeks1 (d : Date) : Date := fromOrdinal (toOrdinal d + 7)

/-- date + relativedelta(years=1): increments the year, clamping the day to
the length of the month (February 29 becomes February 28). -/
def addYears1 (d : Date) : Date :=
  ⟨d.year + 1, d.month, min d.day (daysInMonth (d.year + 1) d.month)⟩

/-- date + relativedelta(month=1): the singular month keyword of relativedelta
is an absolute replacement, so this sets the month to January (clamping the
day to the month length), rather than advancing by one month. -/
def setMonthJanuary (d : Date) : Date :=
  ⟨d.year, 1, min d.day (daysInMonth d.year 1)⟩

namespace Compliances

/-- The recurrence configuration of a ProposalRequirement:
recurrence_pattern (1 weekly, 2 monthly, 3 yearly) and recurrence_schedule
(repeat every N). -/
structure RecurrenceConfig where
  pattern : ℕ
  schedule : ℕ
deriving DecidableEq

/-- One pass of the inner for-loop body of Proposal.generate_compliances:
weekly adds relativedelta(weeks=1), monthly adds relativedelta(month=1)
(which is an absolute set to January in dateutil), yearly adds
relativedelta(years=1). -/
def advanceStep (pattern : ℕ) (d : Date) : Date :=
  if pattern = 1 then addWeeks1 d
  else if pattern = 2 then setMonthJanuary d
  else if pattern = 3 then addYears1 d
  else d

/-- The full inner for-loop over range(recurrence_schedule): the step applied
schedule times. -/
def advanceOnce (cfg : RecurrenceConfig) (d : Date) : Date :=
  (advanceStep cfg.pattern)^[cfg.schedule] d

/-- The while-loop of Proposal.generate_compliances for one recurring
requirement, instrumented with fuel: while current_date < expiry_date,
advance the date by the recurrence step and create a Compliance for it when
it does not exceed the expiry date.  Returns the list of visited due dates,
or none when the fuel runs out before the loop exits. -/
def complianceLoop (cfg : RecurrenceConfig) (expiry : Date) :
    ℕ → Date → List Date → Option (List Date)
  | 0, _, _ => none
  | fuel + 1, current, acc =>
    if dateLt current expiry then
      let next := advanceOnce cfg current
      let acc' := if dateLe next expiry then acc ++ [next] else acc
      complianceLoop cfg expiry fuel next acc'
    else
      some acc

end Compliances

/-! ## Renewal date computation (Proposal.renew_approval) -/

/-- Split a character list at every occurrence of a separator character. -/
def splitOnChar (c : Char) : List Char → List (List Char)
  | [] => [[]]
  | x :: xs =>
    let r := splitOnChar c xs
    if x = c then [] :: r
    else
      match r with
      | [] => [[x]]
      | y :: ys => (x :: y) :: ys

/-- Parse a nonempty all-digit character group as a natural number. -/
def parseNatChars (l : List Char) : Option ℕ :=
  if l.isEmpty then none
  else if l.all (fun c => c.isDigit) then
    some (l.foldl (fun acc c => acc * 10 + (c.toNat - 48)) 0)
  else none

/-- datetime.strptime with format year-month-day, validating ranges. -/
def strptimeYMD (s : String) : Option Date :=
  match (splitOnChar (Char.ofNat 45) s.data).map parseNatChars with
  | [some y, some m, some d] =>
    if 1 ≤ y ∧ 1 ≤ m ∧ m ≤ 12 ∧ 1 ≤ d ∧ d ≤ daysInMonth y m then
      some ⟨y, m, d⟩
    else none
  | _ => none

/-- Zero-pad a number to two digits. -/
def pad2 (n : ℕ) : String :=
  if n < 10 then "0" ++ toString n else toString n

/-- Zero-pad a number to four digits. -/
def pad4 (n : ℕ) : String :=
  if n < 10 then "000" ++ toString n
  else if n < 100 then "00" ++ toString n
  else if n < 1000 then "0" ++ toString n
  else toString n

/-- strftime with format year-month-day. -/
def strftimeYMD (d : Date) : String :=
  pad4 d.year ++ "-" ++ pad2 d.month ++ "-" ++ pad2 d.day

/-- The proposed_issuance_approval date computation of Proposal.renew_approval:
parse the stored start and expiry date strings, set the renewal start date to
the day after the old expiry date and the renewal expiry date to the old
expiry date plus the old duration (expiry minus start), and format both.
The subtraction is the signed timedelta of datetime. -/
def renewProposedDates (startStr expiryStr : String) :
    Option (String × String) :=
  match strptimeYMD startStr, strptimeYMD expiryStr with
  | some sd, some ed =>
    let newStart := fromOrdinal (toOrdinal ed + 1)
    let dur : ℤ := (toOrdinal ed : ℤ) - (toOrdinal sd : ℤ)
    let newExpiry := fromOrdinal ((toOrdinal ed : ℤ) + dur).toNat
    some (strftimeYMD newStart, strftimeYMD newExpiry)
  | _, _ => none

/-! ## Proposal processing statuses (proposals/models.py) -/

/-- The processing_status enum of Proposal. -/
inductive ProcessingStatus
  | draft
  | amendmentRequired
  | withAssessor
  | withAssessorConditions
  | withReferral
  | withReferralConditions
  | withApprover
  | approvedApplication
  | approvedCompetitiveProcess
  | approvedEditingInvoicing
  | approved
  | declined
  | discarded
deriving DecidableEq

namespace Referrals

/-- The processing_status enum of Referral. -/
inductive RefStatus
  | withReferral
  | recalled
  | completed
deriving DecidableEq

/-- A Referral row of one proposal: primary key, processing status and the
sent_from marker (1 sent from assessor, 2 sent from referral). -/
structure ReferralRow where
  rid : ℕ
  status : RefStatus
  sentFrom : ℕ
deriving DecidableEq

/-- One proposal together with its referral rows. -/
structure ProposalReferrals where
  referrals : List ReferralRow
  processingStatus : ProcessingStatus
deriving DecidableEq

/-- Referral.complete: mark this referral completed and save; then, when no
referral of the proposal is left in the with-referral status, restore the
proposal processing status to with-assessor when sent_from is 1 and to
with-approver otherwise. -/
def referral_complete (rid : ℕ) (s : ProposalReferrals) : ProposalReferrals :=
  match s.referrals.find? (fun r => decide (r.rid = rid)) with
  | none => s
  | some me =>
    let referrals' := s.referrals.map (fun r =>
      if r.rid = rid then { r with status := .completed } else r)
    if referrals'.any (fun r => decide (r.status = .withReferral)) then
      { s with referrals := referrals' }
    else
      { referrals := referrals',
        processingStatus :=
          if me.sentFrom = 1 then .withAssessor else .withApprover }

end Referrals

namespace Applicants

/-- The applicant reference fields of Proposal: org_applicant (foreign key),
ind_applicant, proxy_applicant and submitter (user id columns). -/
structure ApplicantFields where
  orgApplicant : Option ℕ
  indApplicant : Option ℕ
  proxyApplicant : Option ℕ
  submitter : Option ℕ
deriving DecidableEq

/-- The APPLICANT_TYPE constants of Proposal. -/
inductive ApplicantKind
  | organisation
  | individual
  | proxy
  | submitter
deriving DecidableEq

/-- What an applicant accessor returns: an Organisation instance, the
ProposalApplicant record, an EmailUser resolved by id, or the
no-applicant fallback string. -/
inductive Resolved
  | organisation (id : ℕ)
  | proposalApplicantRecord
  | emailUser (id : ℕ)
  | noApplicant
deriving DecidableEq

/-- Proposal.applicant: org_applicant, else the ProposalApplicant record when
ind_applicant is set, else the proxy as an EmailUser, else the
no-applicant fallback. -/
def applicant (p : ApplicantFields) : Resolved :=
  match p.orgApplicant with
  | some o => .organisation o
  | none =>
    match p.indApplicant with
    | some _ => .proposalApplicantRecord
    | none =>
      match p.proxyApplicant with
      | some x => .emailUser x
      | none => .noApplicant

/-- Proposal.relevant_applicant: ind_applicant first as an EmailUser, else
org_applicant, else proxy, else submitter. -/
def relevant_applicant (p : ApplicantFields) : Resolved :=
  match p.indApplicant with
  | some i => .emailUser i
  | none =>
    match p.orgApplicant with
    | some o => .organisation o
    | none =>
      match p.proxyApplicant with
      | some x => .emailUser x
      | none =>
        match p.submitter with
        | some s => .emailUser s
        | none => .noApplicant

/-- Proposal.applicant_type: org, else ind, else proxy, else submitter. -/
def applicant_type (p : ApplicantFields) : ApplicantKind :=
  match p.orgApplicant with
  | some _ => .organisation
  | none =>
    match p.indApplicant with
    | some _ => .individual
    | none =>
      match p.proxyApplicant with
      | some _ => .proxy
      | none => .submitter

/-- The precedence order claimed by the specification (organisation over
individual over proxy over submitter), stated as the kind the accessors are
claimed to resolve. -/
def specPrecedenceKind (p : ApplicantFields) : ApplicantKind :=
  match p.orgApplicant with
  | some _ => .organisation
  | none =>
    match p.indApplicant with
    | some _ => .individual
    | none =>
      match p.proxyApplicant with
      | some _ => .proxy
      | none => .submitter

end Applicants

namespace FinalApproval

/-- The decision stored in proposed_issuance_approval for a
registration-of-interest proposal. -/
inductive ROIDecision
  | approveLeaseLicence
  | approveCompetitiveProcess
deriving DecidableEq

/-- The exceptions final_approval can raise on a registration-of-interest
proposal. -/
inductive ApprovalErr
  | notAuthorized
  | notWithApprover
  | noPostalAddress
  | decisionMissing
  | alreadyGeneratedCompetitiveProcess
deriving DecidableEq

/-- The fields of a new registration-of-interest proposal that
final_approval touches: processing status, the generated lease/licence
proposal and competitive process references, the stored decision, and a
fresh-id counter standing for the database sequence. -/
structure ROIProposal where
  processingStatus : ProcessingStatus
  generatedProposalId : Option ℕ
  generatedCompetitiveProcessId : Option ℕ
  decision : Option ROIDecision
  nextId : ℕ
deriving DecidableEq

/-- Proposal.final_approval for a new registration-of-interest proposal:
authorization, with-approver and postal-address checks, then
store_proposed_approval_data (which requires a decision), then either branch
guarded by the generated_proposal reference: spawn the lease/licence proposal
and set approved_application, or call generate_competitive_process (which
raises when one was already generated) and set
approved_competitive_process; when neither guard fires nothing is
generated and the method still completes. -/
def final_approval_roi (canAssess hasPostalAddress : Bool)
    (decision : Option ROIDecision) (p : ROIProposal) :
    Except ApprovalErr ROIProposal :=
  if canAssess = false then .error .notAuthorized
  else if p.processingStatus ≠ ProcessingStatus.withApprover then
    .error .notWithApprover
  else if hasPostalAddress = false then .error .noPostalAddress
  else
    match decision with
    | none => .error .decisionMissing
    | some dec =>
      let p1 := { p with decision := some dec }
      if dec = .approveLeaseLicence ∧ p1.generatedProposalId = none then
        .ok { p1 with
          generatedProposalId := some p1.nextId,
          nextId := p1.nextId + 1,
          processingStatus := .approvedApplication }
      else if dec = .approveCompetitiveProcess ∧
          p1.generatedProposalId = none then
        if p1.generatedCompetitiveProcessId.isSome then
          .error .alreadyGeneratedCompetitiveProcess
        else
          .ok { p1 with
            generatedCompetitiveProcessId := some p1.nextId,
            nextId := p1.nextId + 1,
            processingStatus := .approvedCompetitiveProcess }
      else
        .ok p1

/-- The number of outcome objects (generated lease/licence proposal or
competitive process) a registration-of-interest proposal holds. -/
def outcomeCount (p : ROIProposal) : ℕ :=
  (if p.generatedProposalId.isSome then 1 else 0) +
    (if p.generatedCompetitiveProcessId.isSome then 1 else 0)

/-- One final_approval request against the stored proposal: on an exception
the enclosing transaction rolls back and the stored state is unchanged. -/
def applyFinalApprovalCall (c : Bool × Bool × Option ROIDecision)
    (p : ROIProposal) : ROIProposal :=
  match final_approval_roi c.1 c.2.1 c.2.2 p with
  | .ok p' => p'
  | .error _ => p

/-- A sequence of final_approval requests applied in order. -/
def runFinalApprovalCalls (calls : List (Bool × Bool × Option ROIDecision))
    (p : ROIProposal) : ROIProposal :=
  calls.foldl (fun q c => applyFinalApprovalCall c q) p

end FinalApproval

namespace LicenceDocuments

/-- The category flags of an ApprovalTypeDocumentType. -/
structure DocumentTypeFlags where
  isLicenseDocument : Bool
  isCoverLetter : Bool
  isSignOffSheet : Bool
deriving DecidableEq

/-- One lease_licence_approval_documents row attached by the assessor:
the approval type it targets and its document type. -/
structure AssessorDocument where
  approvalTypeId : ℕ
  docType : DocumentTypeFlags
deriving DecidableEq

/-- Document categories, in the priority order of the if/elif chain of
generate_license_documents. -/
inductive DocCategory
  | licenseDocument
  | coverLetter
  | signOffSheet
  | otherDocument
deriving DecidableEq

/-- The if/elif categorization of one document in
generate_license_documents. -/
def categorize (d : AssessorDocument) : DocCategory :=
  if d.docType.isLicenseDocument then .licenseDocument
  else if d.docType.isCoverLetter then .coverLetter
  else if d.docType.isSignOffSheet then .signOffSheet
  else .otherDocument

/-- Documents whose approval type matches the approval being issued (other
documents are ignored with a log warning). -/
def matchingDocs (approvalTypeId : ℕ) (docs : List AssessorDocument) :
    List AssessorDocument :=
  docs.filter (fun d => decide (d.approvalTypeId = approvalTypeId))

/-- How many matching documents fall in a category. -/
def countCategory (c : DocCategory) (approvalTypeId : ℕ)
    (docs : List AssessorDocument) : ℕ :=
  ((matchingDocs approvalTypeId docs).filter
    (fun d => decide (categorize d = c))).length

/-- The exceptions of final_approval on a new lease/licence proposal. -/
inductive LLApprovalErr
  | notAuthorized
  | notWithApprover
  | noPostalAddress
  | licenseDocumentCount (n : ℕ)
  | coverLetterCount (n : ℕ)
  | signOffSheetCount (n : ℕ)
deriving DecidableEq

/-- The document-count validation of Proposal.generate_license_documents:
each of the license-document, cover-letter and sign-off-sheet categories must
hold exactly one matching document, checked in that order, raising a
ValidationError naming the category and its count otherwise. -/
def generate_license_documents_check (approvalTypeId : ℕ)
    (docs : List AssessorDocument) : Except LLApprovalErr Unit :=
  let lic := countCategory .licenseDocument approvalTypeId docs
  let cov := countCategory .coverLetter approvalTypeId docs
  let sos := countCategory .signOffSheet approvalTypeId docs
  if lic ≠ 1 then .error (.licenseDocumentCount lic)
  else if cov ≠ 1 then .error (.coverLetterCount cov)
  else if sos ≠ 1 then .error (.signOffSheetCount sos)
  else .ok ()

/-- An Approval row keyed by its current_proposal. -/
structure ApprovalRow where
  approvalId : ℕ
  currentProposal : ℕ
deriving DecidableEq

/-- The database slice final_approval writes for a new lease/licence
proposal: the proposal status and approval reference, the Approval table,
the attached assessor documents, and a fresh-id counter. -/
structure LLState where
  processingStatus : ProcessingStatus
  proposalApprovalId : Option ℕ
  approvals : List ApprovalRow
  docs : List AssessorDocument
  nextApprovalId : ℕ
deriving DecidableEq

/-- The body of Proposal.final_approval for a new lease/licence proposal
(proposal id pid, issuing approval type approvalTypeId): checks, then
Approval.objects.update_or_create keyed on current_proposal, then
generate_license_documents (whose ValidationError aborts the body after the
approval row was already written), then linking the approval and moving to
approved_editing_invoicing. -/
def final_approval_newLL_body (canAssess hasPostalAddress : Bool) (pid : ℕ)
    (approvalTypeId : ℕ) (s : LLState) : Except LLApprovalErr LLState :=
  if canAssess = false then .error .notAuthorized
  else if s.processingStatus ≠ ProcessingStatus.withApprover then
    .error .notWithApprover
  else if hasPostalAddress = false then .error .noPostalAddress
  else
    let found := s.approvals.find? (fun a => decide (a.currentProposal = pid))
    let s1 : LLState :=
      match found with
      | some _ => s
      | none =>
        { s with
          approvals := s.approvals ++ [⟨s.nextApprovalId, pid⟩],
          nextApprovalId := s.nextApprovalId + 1 }
    let approvalId :=
      match found with
      | some a => a.approvalId
      | none => s.nextApprovalId
    match generate_license_documents_check approvalTypeId s1.docs with
    | .error e => .error e
    | .ok _ =>
      .ok { s1 with
        proposalApprovalId := some approvalId,
        processingStatus := .approvedEditingInvoicing }

/-- final_approval runs inside one transaction: an exception rolls every
write back, so the stored state is unchanged on error. -/
def final_approval_newLL (canAssess hasPostalAddress : Bool) (pid : ℕ)
    (approvalTypeId : ℕ) (s : LLState) :
    Except LLApprovalErr LLState × LLState :=
  match final_approval_newLL_body canAssess hasPostalAddress pid
      approvalTypeId s with
  | .ok s' => (.ok s', s')
  | .error e => (.error e, s)

end LicenceDocuments

namespace Requirements

/-- The standard requirement codes relevant to gross-turnover invoicing; the
gross_turnover_required flag is set for the annual, quarterly and monthly
financial statement templates. -/
inductive StdReqCode
  | gtAnnual
  | gtQuarterly
  | gtMonthly
  | otherCode
deriving DecidableEq

/-- The gross_turnover_required flag of ProposalStandardRequirement. -/
def grossTurnoverRequired : StdReqCode → Bool
  | .gtAnnual => true
  | .gtQuarterly => true
  | .gtMonthly => true
  | .otherCode => false

/-- A ProposalRequirement row: primary key, owning proposal, standard
requirement code, the is_deleted soft-delete flag, and the schedule fields
the annual update writes. -/
structure ReqRow where
  rid : ℕ
  proposalId : ℕ
  code : StdReqCode
  isDeleted : Bool
  dueDate : Option Date
  reminderDate : Option Date
  recurrence : Bool
  recurrencePattern : Option ℕ
  recurrenceSchedule : Option ℕ
deriving DecidableEq

/-- The ProposalRequirement table with its id sequence. -/
structure ReqDB where
  rows : List ReqRow
  nextRid : ℕ
deriving DecidableEq

/-- The charge_method keys distinguished by
update_gross_turnover_requirements. -/
inductive ChargeMethodKey
  | grossTurnoverAdvance
  | grossTurnoverArrears
  | otherMethod
deriving DecidableEq

/-- The invoicing_repetition_type keys. -/
inductive RepetitionKey
  | annually
  | quarterly
  | monthly
deriving DecidableEq

/-- Database errors a queryset get can raise. -/
inductive DbErr
  | multipleObjectsReturned
deriving DecidableEq

/-- A queryset update(...): apply the field assignment to every row matching
the filter. -/
def updateWhere (f : ReqRow → Bool) (g : ReqRow → ReqRow) (db : ReqDB) :
    ReqDB :=
  { db with rows := db.rows.map (fun r => if f r then g r else r) }

/-- A freshly created ProposalRequirement row with model field defaults. -/
def defaultRow (rid pid : ℕ) (code : StdReqCode) : ReqRow :=
  ⟨rid, pid, code, false, none, none, false, none, none⟩

/-- Queryset filter on (proposal, standard_requirement). -/
def keyFilter (pid : ℕ) (code : StdReqCode) (r : ReqRow) : Bool :=
  decide (r.proposalId = pid) && decide (r.code = code)

/-- Queryset filter on (proposal, standard_requirement, is_deleted=False). -/
def keyFilterND (pid : ℕ) (code : StdReqCode) (r : ReqRow) : Bool :=
  decide (r.proposalId = pid) && decide (r.code = code) &&
    decide (r.isDeleted = false)

/-- ProposalRequirement.objects.get_or_create keyed on
(proposal, standard_requirement): returns the single matching row, or
creates one with defaults; raises when more than one row matches. -/
def getOrCreate (pid : ℕ) (code : StdReqCode) (db : ReqDB) :
    Except DbErr (ReqRow × Bool × ReqDB) :=
  match db.rows.filter (keyFilter pid code) with
  | [] =>
    let row := defaultRow db.nextRid pid code
    .ok (row, true, { rows := db.rows ++ [row], nextRid := db.nextRid + 1 })
  | [r] => .ok (r, false, db)
  | _ :: _ :: _ => .error .multipleObjectsReturned

/-- get_or_create keyed on (proposal, standard_requirement,
is_deleted=False), used for the annual financial statement requirement. -/
def getOrCreateNotDeleted (pid : ℕ) (code : StdReqCode) (db : ReqDB) :
    Except DbErr (ReqRow × Bool × ReqDB) :=
  match db.rows.filter (keyFilterND pid code) with
  | [] =>
    let row := defaultRow db.nextRid pid code
    .ok (row, true, { rows := db.rows ++ [row], nextRid := db.nextRid + 1 })
  | [r] => .ok (r, false, db)
  | _ :: _ :: _ => .error .multipleObjectsReturned

/-- Modelled from the spec: the helper end_of_next_financial_year of
leaseslicensing/components/invoicing/utils.py is not among the provided
sources.  The spec describes the first annual due date as October 31 of the
financial year following the approval start date, the financial year ending
June 30. -/
def end_of_next_financial_year (d : Date) : Date :=
  if 7 ≤ d.month then ⟨d.year + 2, 6, 30⟩ else ⟨d.year + 1, 6, 30⟩

/-- The per-row field assignment of the annual tail section: due date October
31 of the year the next financial year ends, reminder the day after that
year end, yearly recurrence every 1 year. -/
def annualSchedSet (approvalStart : Date) (r : ReqRow) : ReqRow :=
  let eofy := end_of_next_financial_year approvalStart
  { r with
    dueDate := some ⟨eofy.year, 10, 31⟩,
    reminderDate := some (addDays eofy 1),
    recurrence := true,
    recurrencePattern := some 3,
    recurrenceSchedule := some 1 }

/-- The annual tail section of update_gross_turnover_requirements: fetch or
create the non-deleted annual financial statement requirement for the
proposal and update its schedule fields. -/
def updateAnnualSection (pid : ℕ) (approvalStart : Date) (db : ReqDB) :
    Except DbErr ReqDB :=
  match getOrCreateNotDeleted pid .gtAnnual db with
  | .error e => .error e
  | .ok (row, _, db1) =>
    .ok (updateWhere (fun r => decide (r.rid = row.rid))
      (annualSchedSet approvalStart) db1)

/-- Primary keys are unique in the requirement table. -/
def uniqRid (db : ReqDB) : Prop :=
  ∀ a ∈ db.rows, ∀ b ∈ db.rows, a.rid = b.rid → a = b

/-- The id sequence is ahead of every stored row. -/
def freshRid (db : ReqDB) : Prop :=
  ∀ r ∈ db.rows, r.rid < db.nextRid

/-- How the annual tail section relates its output table to its input table:
either it rewrote schedule fields in place through a function preserving
primary key, proposal, code and deletion flag of every row, or it appended
one fresh non-deleted annual requirement row because none existed. -/
def AnnualStruct (pid : ℕ) (start : Date) (dbIn dbOut : ReqDB) : Prop :=
  (∃ u : ReqRow → ReqRow,
      (∀ r, (u r).rid = r.rid) ∧ (∀ r, (u r).proposalId = r.proposalId)
      ∧ (∀ r, (u r).code = r.code) ∧ (∀ r, (u r).isDeleted = r.isDeleted)
      ∧ dbOut.rows = dbIn.rows.map u ∧ dbOut.nextRid = dbIn.nextRid
      ∧ (dbIn.rows.filter (keyFilterND pid .gtAnnual)).length = 1)
  ∨ (dbOut.rows = dbIn.rows ++
        [annualSchedSet start (defaultRow dbIn.nextRid pid .gtAnnual)]
      ∧ dbOut.nextRid = dbIn.nextRid + 1
      ∧ dbIn.rows.filter (keyFilterND pid .gtAnnual) = [])

/-- Proposal.update_gross_turnover_requirements: for a non-gross-turnover
charge method, soft-delete every gross-turnover requirement of the proposal
and return; for percentage-of-gross-turnover in advance, soft-delete the
monthly and quarterly gross-turnover requirements (the source applies this
update without a proposal filter); for in arrears, soft-delete the
requirements of the cadence not selected and get-or-create the selected
cadence requirement (reviving it when it existed soft-deleted); finally
ensure the annual requirement and its schedule fields. -/
def update_gross_turnover_requirements (chargeMethod : ChargeMethodKey)
    (repType : RepetitionKey) (pid : ℕ) (approvalStart : Date)
    (db : ReqDB) : Except DbErr ReqDB :=
  if chargeMethod = .otherMethod then
    .ok (updateWhere (fun r =>
        grossTurnoverRequired r.code && decide (r.proposalId = pid))
      (fun r => { r with isDeleted := true }) db)
  else
    let db1 :=
      if chargeMethod = .grossTurnoverAdvance then
        updateWhere (fun r =>
            decide (r.code = .gtMonthly) || decide (r.code = .gtQuarterly))
          (fun r => { r with isDeleted := true }) db
      else db
    let next : Except DbErr ReqDB :=
      if chargeMethod = .grossTurnoverArrears then
        if repType = .quarterly then
          let db2 := updateWhere (fun r =>
              decide (r.code = .gtMonthly) && decide (r.proposalId = pid) &&
                decide (r.isDeleted = false))
            (fun r => { r with isDeleted := true }) db1
          match getOrCreate pid .gtQuarterly db2 with
          | .error e => .error e
          | .ok (row, created, db3) =>
            if created then .ok db3
            else .ok (updateWhere (fun r => decide (r.rid = row.rid))
              (fun r => { r with isDeleted := false }) db3)
        else if repType = .monthly then
          let db2 := updateWhere (fun r =>
              decide (r.code = .gtQuarterly) && decide (r.proposalId = pid) &&
                decide (r.isDeleted = false))
            (fun r => { r with isDeleted := true }) db1
          match getOrCreate pid .gtMonthly db2 with
          | .error e => .error e
          | .ok (row, created, db3) =>
            if created then .ok db3
            else .ok (updateWhere (fun r => decide (r.rid = row.rid))
              (fun r => { r with isDeleted := false }) db3)
        else .ok db1
      else .ok db1
    match next with
    | .error e => .error e
    | .ok db4 => updateAnnualSection pid approvalStart db4

end Requirements

/-! ## Sample states used by witnesses and counterexamples -/

/-- A sample ledger: an invoice of 100.00 with one 50.00 debit line. -/
def sampleLedgerC1 : Invoicing.InvoiceLedger :=
  ⟨⟨100, .unpaid⟩, [⟨0, 50⟩]⟩

/-- A database holding a single invoice with uuid 1, already paid. -/
def sampleDbC3Paid : Invoicing.LedgerDB :=
  ⟨[⟨1, 100, .paid, some 5⟩], []⟩

/-- A database holding a single unpaid invoice with uuid 2 over 100.00. -/
def sampleDbC3Unpaid : Invoicing.LedgerDB :=
  ⟨[⟨2, 100, .unpaid, none⟩], []⟩

/-- A proposal in with-referral status with two pending referrals, the first
sent from the assessor and the second from the approver side. -/
def sampleReferralsC4 : Referrals.ProposalReferrals :=
  ⟨[⟨1, .withReferral, 1⟩, ⟨2, .withReferral, 2⟩], .withReferral⟩

/-- A new lease/licence proposal with an approver, no approvals yet, a
license document and a sign-off sheet for approval type 7, but no cover
letter. -/
def sampleLLStateC2 : LicenceDocuments.LLState :=
  ⟨.withApprover, none, [],
    [⟨7, ⟨true, false, false⟩⟩, ⟨7, ⟨false, false, true⟩⟩], 1⟩

/-- A table holding one non-deleted quarterly gross-turnover requirement for
proposal 1 (the prior quarterly cadence) and nothing else. -/
def sampleReqDbC6 : Requirements.ReqDB :=
  ⟨[⟨1, 1, .gtQuarterly, false, none, none, false, none, none⟩], 2⟩

/-- A table holding a non-deleted quarterly row for proposal 1 together with
a non-deleted monthly gross-turnover row belonging to a different
proposal 2. -/
def sampleReqDbC10 : Requirements.ReqDB :=
  ⟨[⟨1, 1, .gtQuarterly, false, none, none, false, none, none⟩,
    ⟨2, 2, .gtMonthly, false, none, none, false, none, none⟩], 3⟩

/-! # Theorems -/

/-! ## Decimal lemmas -/

theorem roundHalfEven_intCast (n : ℤ) : roundHalfEven (n : ℚ) = n := by
  have h : (0 : ℚ) < 1 / 2 := by norm_num
  simp [roundHalfEven, h]

theorem quantize2_twoDP {q : ℚ} (h : TwoDP q) : quantize2 q = q := by
  obtain ⟨n, rfl⟩ := h
  have h100 : ((n : ℚ) / 100) * 100 = (n : ℚ) := by
    field_simp
  rw [quantize2, h100, roundHalfEven_intCast]

theorem twoDP_zero : TwoDP 0 := ⟨0, by norm_num⟩

theorem twoDP_add {a b : ℚ} (ha : TwoDP a) (hb : TwoDP b) : TwoDP (a + b) := by
  obtain ⟨m, rfl⟩ := ha
  obtain ⟨n, rfl⟩ := hb
  exact ⟨m + n, by push_cast; ring⟩

theorem twoDP_sub {a b : ℚ} (ha : TwoDP a) (hb : TwoDP b) : TwoDP (a - b) := by
  obtain ⟨m, rfl⟩ := ha
  obtain ⟨n, rfl⟩ := hb
  exact ⟨m - n, by push_cast; ring⟩

theorem twoDP_sum (f : Invoicing.InvoiceTransaction → ℚ)
    (ts : List Invoicing.InvoiceTransaction)
    (h : ∀ t ∈ ts, TwoDP (f t)) : TwoDP ((ts.map f).sum) := by
  induction ts with
  | nil => simpa using twoDP_zero
  | cons t ts ih =>
    simp only [List.map_cons, List.sum_cons]
    exact twoDP_add (h t (by simp)) (ih (fun u hu => h u (by simp [hu])))

theorem validDecimal92_twoDP {q : ℚ} (h : Invoicing.validDecimal92 q = true) :
    TwoDP q := by
  have hden : (q * 100).den = 1 := by
    simp only [Invoicing.validDecimal92, Bool.and_eq_true, beq_iff_eq,
      decide_eq_true_eq] at h
    exact h.1
  refine ⟨(q * 100).num, ?_⟩
  have : ((q * 100).num : ℚ) = q * 100 := (Rat.den_eq_one_iff _).mp hden
  rw [this]
  ring

namespace Invoicing

theorem coalesce_aggSum (f : InvoiceTransaction → ℚ)
    (ts : List InvoiceTransaction) :
    coalesce (aggSum f ts) 0 = (ts.map f).sum := by
  cases ts <;> simp [aggSum, coalesce]

/-- The balance of a ledger whose stored decimals are exact two-decimal-place
values is the exact sum, the quantization being the identity there. -/
theorem balance_eq (l : InvoiceLedger) (hA : TwoDP l.invoice.amount)
    (hT : ∀ t ∈ l.transactions, TwoDP t.credit ∧ TwoDP t.debit) :
    balance l = l.invoice.amount + (l.transactions.map (fun t => t.credit)).sum
      - (l.transactions.map (fun t => t.debit)).sum := by
  have hc : TwoDP ((l.transactions.map (fun t => t.credit)).sum) :=
    twoDP_sum _ _ (fun t ht => (hT t ht).1)
  have hd : TwoDP ((l.transactions.map (fun t => t.debit)).sum) :=
    twoDP_sum _ _ (fun t ht => (hT t ht).2)
  unfold balance
  rw [coalesce_aggSum, coalesce_aggSum]
  exact quantize2_twoDP (twoDP_sub (twoDP_add hA hc) hd)

theorem record_transaction_true_eq (credit debit : ℚ) (l : InvoiceLedger)
    (hc : validDecimal92 credit = true) (hd : validDecimal92 debit = true) :
    record_transaction true credit debit l =
      if balance
          { l with transactions := l.transactions ++ [⟨credit, debit⟩] }
            = 0 then
        (.ok,
          { invoice := { amount := l.invoice.amount, status := .paid },
            transactions := l.transactions ++ [⟨credit, debit⟩] })
      else
        (.ok, { l with transactions := l.transactions ++ [⟨credit, debit⟩] })
    := by
  simp [record_transaction, hc, hd]

end Invoicing

/-! ## C1 -/

/-- C1: for every invoice, the derived balance equals the amount plus the sum
of transaction credits minus the sum of transaction debits (the quantization
to two decimal places is exact on the stored two-decimal values); when
record_transaction saves a transaction whose resulting balance is exactly
0.00 it sets the invoice status to paid as a side effect of the call; and
record_transaction never moves a status back to unpaid. -/
theorem c1_invoice_balance_and_record_transaction
    (l : Invoicing.InvoiceLedger) (credit debit : ℚ)
    (hA : TwoDP l.invoice.amount)
    (hT : ∀ t ∈ l.transactions, TwoDP t.credit ∧ TwoDP t.debit)
    (hc : Invoicing.validDecimal92 credit = true)
    (hd : Invoicing.validDecimal92 debit = true) :
    Invoicing.balance l =
      l.invoice.amount + (l.transactions.map (fun t => t.credit)).sum
        - (l.transactions.map (fun t => t.debit)).sum
    ∧ (Invoicing.record_transaction true credit debit l).1 =
        Invoicing.RecordTransactionResult.ok
    ∧ (Invoicing.record_transaction true credit debit l).2.transactions =
        l.transactions ++ [⟨credit, debit⟩]
    ∧ (Invoicing.balance (Invoicing.record_transaction true credit debit l).2
          = 0 →
        (Invoicing.record_transaction true credit debit l).2.invoice.status =
          Invoicing.InvoiceStatus.paid)
    ∧ (∀ fin : Bool,
        (Invoicing.record_transaction fin credit debit l).2.invoice.status =
            Invoicing.InvoiceStatus.unpaid →
          l.invoice.status = Invoicing.InvoiceStatus.unpaid) := by
  refine ⟨Invoicing.balance_eq l hA hT, ?_, ?_, ?_, ?_⟩
  · rw [Invoicing.record_transaction_true_eq credit debit l hc hd]
    split <;> rfl
  · rw [Invoicing.record_transaction_true_eq credit debit l hc hd]
    split <;> rfl
  · rw [Invoicing.record_transaction_true_eq credit debit l hc hd]
    by_cases hb : Invoicing.balance
        { l with transactions := l.transactions ++ [⟨credit, debit⟩] } = 0
    · rw [if_pos hb]
      intro _
      rfl
    · rw [if_neg hb]
      intro habs
      exact absurd habs hb
  · intro fin
    cases fin
    · exact fun h => h
    · rw [Invoicing.record_transaction_true_eq credit debit l hc hd]
      by_cases hb : Invoicing.balance
          { l with transactions := l.transactions ++ [⟨credit, debit⟩] } = 0
      · rw [if_pos hb]
        intro h
        simp at h
      · rw [if_neg hb]
        exact fun h => h

/-- Witness for C1 at a concrete ledger: an invoice of 100.00 with one 50.00
debit line, receiving another 50.00 debit, which drives the balance to zero
and the status to paid. -/
theorem c1_witness :
    Invoicing.balance sampleLedgerC1 =
      sampleLedgerC1.invoice.amount
        + (sampleLedgerC1.transactions.map (fun t => t.credit)).sum
        - (sampleLedgerC1.transactions.map (fun t => t.debit)).sum
    ∧ (Invoicing.record_transaction true 0 50 sampleLedgerC1).1 =
        Invoicing.RecordTransactionResult.ok
    ∧ (Invoicing.record_transaction true 0 50 sampleLedgerC1).2.transactions =
        sampleLedgerC1.transactions ++ [⟨0, 50⟩]
    ∧ (Invoicing.balance
          (Invoicing.record_transaction true 0 50 sampleLedgerC1).2 = 0 →
        (Invoicing.record_transaction true 0 50
            sampleLedgerC1).2.invoice.status =
          Invoicing.InvoiceStatus.paid)
    ∧ (∀ fin : Bool,
        (Invoicing.record_transaction fin 0 50
              sampleLedgerC1).2.invoice.status =
            Invoicing.InvoiceStatus.unpaid →
          sampleLedgerC1.invoice.status = Invoicing.InvoiceStatus.unpaid) :=
  c1_invoice_balance_and_record_transaction sampleLedgerC1 0 50
    ⟨10000, by norm_num [sampleLedgerC1]⟩
    (by
      intro t ht
      simp only [sampleLedgerC1, List.mem_singleton] at ht
      subst ht
      exact ⟨⟨0, by norm_num⟩, ⟨5000, by norm_num⟩⟩)
    (by norm_num [Invoicing.validDecimal92])
    (by norm_num [Invoicing.validDecimal92])

/-! ## C3 -/

/-- C3 counterexample: re-invoking the payment-success callback with the uuid
of an invoice already in status paid is a no-op, but it returns HTTP 400 bad
request, not a success response as the claim states. -/
theorem c3_counterexample :
    (Invoicing.pay_invoice_success_callback (some 1) 9 sampleDbC3Paid).1 =
      Invoicing.HTTP_400_BAD_REQUEST
    ∧ Invoicing.HTTP_400_BAD_REQUEST ≠ Invoicing.HTTP_200_OK
    ∧ (Invoicing.pay_invoice_success_callback (some 1) 9 sampleDbC3Paid).2 =
      sampleDbC3Paid := by
  refine ⟨rfl, by decide, rfl⟩

/-- C3 (amended): the payment-success callback is a no-op on the invoice and
transaction tables when no invoice with the uuid is unpaid (in particular
when it is already paid), returning HTTP 400 bad request rather than a
success status; for an unpaid invoice it records a debit transaction equal to
the invoice amount, sets the status to paid, stamps date_paid and returns
HTTP 200. -/
theorem c3_pay_invoice_success_callback (db : Invoicing.LedgerDB)
    (u now : ℕ) :
    ((∀ i ∈ db.invoices, i.uuid = u →
        i.status ≠ Invoicing.InvoiceStatus.unpaid) →
      Invoicing.pay_invoice_success_callback (some u) now db =
        (Invoicing.HTTP_400_BAD_REQUEST, db))
    ∧ (∀ inv ∈ db.invoices, inv.uuid = u →
        inv.status = Invoicing.InvoiceStatus.unpaid →
        (∀ i ∈ db.invoices, i.uuid = u → i = inv) →
        Invoicing.pay_invoice_success_callback (some u) now db =
          (Invoicing.HTTP_200_OK,
            { invoices := db.invoices.map (fun i =>
                if i.uuid = u then
                  { i with status := .paid, datePaid := some now }
                else i),
              transactions := db.transactions ++ [⟨u, 0, inv.amount⟩] })) := by
  constructor
  · intro h
    have hfil : db.invoices.filter (fun i =>
        decide (i.uuid = u) && decide (i.status = .unpaid)) = [] := by
      rw [List.filter_eq_nil_iff]
      intro i hi
      simp only [Bool.and_eq_true, decide_eq_true_eq, not_and]
      exact h i hi
    simp [Invoicing.pay_invoice_success_callback, hfil]
  · intro inv hmem huuid hstat huniq
    have hpred : (fun i : Invoicing.CallbackInvoice =>
        decide (i.uuid = u) && decide (i.status = .unpaid)) inv = true := by
      simp [huuid, hstat]
    have hne : db.invoices.filter (fun i =>
        decide (i.uuid = u) && decide (i.status = .unpaid)) ≠ [] :=
      List.ne_nil_of_mem (List.mem_filter.mpr ⟨hmem, hpred⟩)
    have hempty : (db.invoices.filter (fun i =>
        decide (i.uuid = u) && decide (i.status = .unpaid))).isEmpty
          = false := by
      cases hcase : db.invoices.filter (fun i =>
          decide (i.uuid = u) && decide (i.status = .unpaid)) with
      | nil => exact absurd hcase hne
      | cons a as => rfl
    have hsome : (db.invoices.find? (fun i => decide (i.uuid = u))).isSome := by
      rw [List.find?_isSome]
      exact ⟨inv, hmem, by simp [huuid]⟩
    obtain ⟨x, hx⟩ := Option.isSome_iff_exists.mp hsome
    have hxmem := List.mem_of_find?_eq_some hx
    have hxp := List.find?_some hx
    have hxu : x.uuid = u := by simpa using hxp
    have hxinv : x = inv := huniq x hxmem hxu
    subst hxinv
    simp [Invoicing.pay_invoice_success_callback, hempty, hx]

/-- Witness for C3 at concrete databases: the callback leaves a paid invoice
and its transactions untouched with a 400 response, and pays out an unpaid
invoice with a 200 response. -/
theorem c3_witness :
    Invoicing.pay_invoice_success_callback (some 1) 9 sampleDbC3Paid =
      (Invoicing.HTTP_400_BAD_REQUEST, sampleDbC3Paid)
    ∧ Invoicing.pay_invoice_success_callback (some 2) 9 sampleDbC3Unpaid =
      (Invoicing.HTTP_200_OK,
        ⟨[⟨2, 100, .paid, some 9⟩], [⟨2, 0, 100⟩]⟩) := by
  constructor
  · exact (c3_pay_invoice_success_callback sampleDbC3Paid 1 9).1
      (by
        intro i hi _
        simp only [sampleDbC3Paid, List.mem_singleton] at hi
        subst hi
        decide)
  · exact (c3_pay_invoice_success_callback sampleDbC3Unpaid 2 9).2
      ⟨2, 100, .unpaid, none⟩
      (by simp [sampleDbC3Unpaid]) rfl rfl
      (by
        intro i hi _
        simpa [sampleDbC3Unpaid] using hi)

/-! ## C5 -/

theorem complianceLoop_monthly_stuck (fuel : ℕ) (acc : List Date) :
    Compliances.complianceLoop ⟨2, 1⟩ ⟨2025, 6, 30⟩ fuel ⟨2024, 1, 15⟩ acc
      = none := by
  induction fuel generalizing acc with
  | zero => rfl
  | succ n ih =>
    have hstep :
        Compliances.complianceLoop ⟨2, 1⟩ ⟨2025, 6, 30⟩ (n + 1)
            ⟨2024, 1, 15⟩ acc
          = Compliances.complianceLoop ⟨2, 1⟩ ⟨2025, 6, 30⟩ n
              ⟨2024, 1, 15⟩ (acc ++ [⟨2024, 1, 15⟩]) := rfl
    rw [hstep]
    exact ih _

/-- C5 is a code bug: the monthly recurrence branch of generate_compliances
applies relativedelta with the singular month keyword, which sets the month
of the working due date to January instead of advancing it by one month, so
the date reaches a fixed point below the expiry date and the while loop
never terminates.  The first conjunct shows the step function for the
monthly pattern only replaces the month by January; the second shows the
loop returns no result for any amount of fuel on the failing input
(due date 2024-05-15, monthly recurrence every 1, expiry 2025-06-30). -/
theorem c5_monthly_recurrence_bug :
    (∀ d : Date, Compliances.advanceStep 2 d = ⟨d.year, 1, min d.day 31⟩)
    ∧ ∀ fuel : ℕ,
        Compliances.complianceLoop ⟨2, 1⟩ ⟨2025, 6, 30⟩ fuel
          ⟨2024, 5, 15⟩ [] = none := by
  constructor
  · intro d
    rfl
  · intro fuel
    cases fuel with
    | zero => rfl
    | succ n =>
      have hstep :
          Compliances.complianceLoop ⟨2, 1⟩ ⟨2025, 6, 30⟩ (n + 1)
              ⟨2024, 5, 15⟩ []
            = Compliances.complianceLoop ⟨2, 1⟩ ⟨2025, 6, 30⟩ n
                ⟨2024, 1, 15⟩ [⟨2024, 1, 15⟩] := rfl
      rw [hstep]
      exact complianceLoop_monthly_stuck n _

/-! ## C7 -/

/-- C7: renew_approval computes the renewal proposed start date as the old
expiry date plus one day, and the renewal proposed expiry date as the old
expiry date plus the old duration (expiry minus start), via the stored
year-month-day strings. -/
theorem c7_renew_approval_dates (s e : String) (sd ed : Date)
    (hs : strptimeYMD s = some sd) (he : strptimeYMD e = some ed)
    (hle : toOrdinal sd ≤ toOrdinal ed) :
    renewProposedDates s e =
      some (strftimeYMD (fromOrdinal (toOrdinal ed + 1)),
        strftimeYMD (fromOrdinal
          (toOrdinal ed + (toOrdinal ed - toOrdinal sd)))) := by
  simp only [renewProposedDates, hs, he]
  have hnat : ((toOrdinal ed : ℤ) +
        ((toOrdinal ed : ℤ) - (toOrdinal sd : ℤ))).toNat
      = toOrdinal ed + (toOrdinal ed - toOrdinal sd) := by
    omega
  rw [hnat]

/-- Witness for C7 at the concrete dates of the claim: a proposal running
2024-01-01 through 2024-12-31 renews to 2025-01-01 through 2025-12-31. -/
theorem c7_witness :
    renewProposedDates "2024-01-01" "2024-12-31" =
      some ("2025-01-01", "2025-12-31") := by
  have h := c7_renew_approval_dates "2024-01-01" "2024-12-31"
    ⟨2024, 1, 1⟩ ⟨2024, 12, 31⟩ (by decide) (by decide) (by decide)
  exact h.trans (by decide)

/-! ## C4 -/

namespace Referrals

/-- Updating the status of a row keeps its primary key. -/
theorem rid_update_status (g : RefStatus) (rid : ℕ) (r : ReferralRow) :
    (if r.rid = rid then { r with status := g } else r).rid = r.rid := by
  split <;> rfl

/-- With unique primary keys, find-by-rid returns the member itself. -/
theorem find_rid_eq (l : List ReferralRow) (r : ReferralRow) (hmem : r ∈ l)
    (huniq : ∀ a ∈ l, ∀ b ∈ l, a.rid = b.rid → a = b) :
    l.find? (fun x => decide (x.rid = r.rid)) = some r := by
  have hsome : (l.find? (fun x => decide (x.rid = r.rid))).isSome := by
    rw [List.find?_isSome]
    exact ⟨r, hmem, by simp⟩
  obtain ⟨x, hx⟩ := Option.isSome_iff_exists.mp hsome
  have hxmem := List.mem_of_find?_eq_some hx
  have hxp := List.find?_some hx
  have hxr : x.rid = r.rid := by simpa using hxp
  rw [hx, huniq x hxmem r hmem hxr]

end Referrals

/-- C4: completing one of two pending referrals marks it completed and leaves
the proposal processing status unchanged; completing the last pending
referral restores the processing status to with-assessor when the completed
referral was sent from the assessor (sent_from 1) and to with-approver
otherwise. -/
theorem c4_referral_complete (s : Referrals.ProposalReferrals)
    (r1 r2 : Referrals.ReferralRow)
    (hmem1 : r1 ∈ s.referrals) (hmem2 : r2 ∈ s.referrals)
    (huniq : ∀ a ∈ s.referrals, ∀ b ∈ s.referrals, a.rid = b.rid → a = b)
    (hne : r1.rid ≠ r2.rid)
    (h1 : r1.status = .withReferral) (h2 : r2.status = .withReferral)
    (honly : ∀ r ∈ s.referrals,
      r.status = Referrals.RefStatus.withReferral → r = r1 ∨ r = r2) :
    ((Referrals.referral_complete r1.rid s).processingStatus
        = s.processingStatus)
    ∧ (∀ r ∈ (Referrals.referral_complete r1.rid s).referrals,
        r.rid = r1.rid → r.status = Referrals.RefStatus.completed)
    ∧ ((Referrals.referral_complete r2.rid
          (Referrals.referral_complete r1.rid s)).processingStatus
        = (if r2.sentFrom = 1 then ProcessingStatus.withAssessor
           else ProcessingStatus.withApprover)) := by
  have hfind1 := Referrals.find_rid_eq s.referrals r1 hmem1 huniq
  set g1 : Referrals.ReferralRow → Referrals.ReferralRow := fun r =>
    if r.rid = r1.rid then { r with status := .completed } else r with hg1
  have hg1r2 : g1 r2 = r2 := by
    rw [hg1]
    simp only []
    rw [if_neg (fun h => hne h.symm)]
  have hany1 : (s.referrals.map g1).any
      (fun r => decide (r.status = Referrals.RefStatus.withReferral))
        = true := by
    rw [List.any_eq_true]
    exact ⟨r2, by
      rw [← hg1r2]
      exact List.mem_map_of_mem g1 hmem2, by simp [h2]⟩
  have hs1 : Referrals.referral_complete r1.rid s =
      { referrals := s.referrals.map g1,
        processingStatus := s.processingStatus } := by
    unfold Referrals.referral_complete
    rw [hfind1]
    simp only [hany1, if_true]
  refine ⟨by rw [hs1], ?_, ?_⟩
  · intro r hr hrid
    rw [hs1] at hr
    obtain ⟨a, hamem, rfl⟩ := List.mem_map.mp hr
    rw [hg1]
    by_cases hcase : a.rid = r1.rid
    · simp [hcase]
    · rw [hg1] at hrid
      simp only [if_neg hcase] at hrid
      exact absurd hrid hcase
  · have hridg1 : ∀ a : Referrals.ReferralRow, (g1 a).rid = a.rid := by
      intro a
      rw [hg1]
      exact Referrals.rid_update_status _ _ _
    have huniq1 : ∀ a ∈ s.referrals.map g1, ∀ b ∈ s.referrals.map g1,
        a.rid = b.rid → a = b := by
      intro a ha b hb hab
      obtain ⟨a0, ha0, rfl⟩ := List.mem_map.mp ha
      obtain ⟨b0, hb0, rfl⟩ := List.mem_map.mp hb
      rw [hridg1, hridg1] at hab
      rw [huniq a0 ha0 b0 hb0 hab]
    have hmem2x : r2 ∈ s.referrals.map g1 := by
      rw [← hg1r2]
      exact List.mem_map_of_mem g1 hmem2
    have hfind2 := Referrals.find_rid_eq (s.referrals.map g1) r2 hmem2x huniq1
    set g2 : Referrals.ReferralRow → Referrals.ReferralRow := fun r =>
      if r.rid = r2.rid then { r with status := .completed } else r with hg2
    have hany2 : ((s.referrals.map g1).map g2).any
        (fun r => decide (r.status = Referrals.RefStatus.withReferral))
          = false := by
      rw [List.any_eq_false]
      intro x hx
      obtain ⟨a1, ha1, rfl⟩ := List.mem_map.mp hx
      obtain ⟨a0, ha0, rfl⟩ := List.mem_map.mp ha1
      simp only [decide_eq_true_eq]
      by_cases hc2 : (g1 a0).rid = r2.rid
      · have : g2 (g1 a0) = { g1 a0 with status := .completed } := by
          rw [hg2]
          simp only [if_pos hc2]
        rw [this]
        simp
      · have hskip2 : g2 (g1 a0) = g1 a0 := by
          rw [hg2]
          simp only [if_neg hc2]
        rw [hskip2]
        by_cases hc1 : a0.rid = r1.rid
        · have : g1 a0 = { a0 with status := .completed } := by
            rw [hg1]
            simp only [if_pos hc1]
          rw [this]
          simp
        · have hskip1 : g1 a0 = a0 := by
            rw [hg1]
            simp only [if_neg hc1]
          rw [hskip1]
          rw [hskip1] at hc2
          intro habs
          rcases honly a0 ha0 habs with rfl | rfl
          · exact hc1 rfl
          · exact hc2 rfl
    rw [hs1]
    unfold Referrals.referral_complete
    simp only []
    rw [hfind2]
    simp only [hany2, Bool.false_eq_true, if_false]

/-- Witness for C4 at a concrete proposal with two pending referrals:
completing the first keeps the proposal in with-referral; completing the
second as well restores with-approver since its sent_from is 2. -/
theorem c4_witness :
    ((Referrals.referral_complete 1 sampleReferralsC4).processingStatus
        = sampleReferralsC4.processingStatus)
    ∧ (∀ r ∈ (Referrals.referral_complete 1 sampleReferralsC4).referrals,
        r.rid = 1 → r.status = Referrals.RefStatus.completed)
    ∧ ((Referrals.referral_complete 2
          (Referrals.referral_complete 1 sampleReferralsC4)).processingStatus
        = (if 2 = 1 then ProcessingStatus.withAssessor
           else ProcessingStatus.withApprover)) :=
  c4_referral_complete sampleReferralsC4
    ⟨1, .withReferral, 1⟩ ⟨2, .withReferral, 2⟩
    (by simp [sampleReferralsC4]) (by simp [sampleReferralsC4])
    (by decide) (by decide) rfl rfl (by decide)

/-! ## C9 -/

/-- C9 counterexample: on a proposal with both an organisation and an
individual applicant set, applicant and applicant_type resolve the
organisation, but relevant_applicant resolves the individual as an email
user, so the three accessors do not share the claimed
organisation-first precedence. -/
theorem c9_counterexample :
    Applicants.applicant ⟨some 1, some 2, none, some 3⟩ =
      Applicants.Resolved.organisation 1
    ∧ Applicants.applicant_type ⟨some 1, some 2, none, some 3⟩ =
      Applicants.ApplicantKind.organisation
    ∧ Applicants.relevant_applicant ⟨some 1, some 2, none, some 3⟩ =
      Applicants.Resolved.emailUser 2
    ∧ Applicants.Resolved.emailUser 2 ≠
      Applicants.Resolved.organisation 1 := by
  decide

/-- C9 (amended): applicant and applicant_type resolve with precedence
organisation over individual over proxy (applicant falling back to the
no-applicant value, applicant_type to the submitter kind), while
relevant_applicant resolves with precedence individual over organisation
over proxy over submitter. -/
theorem c9_applicant_precedence (p : Applicants.ApplicantFields) :
    Applicants.applicant_type p = Applicants.specPrecedenceKind p
    ∧ (∀ o, p.orgApplicant = some o →
        Applicants.applicant p = Applicants.Resolved.organisation o)
    ∧ (p.orgApplicant = none → p.indApplicant = none →
        p.proxyApplicant = none →
        Applicants.applicant p = Applicants.Resolved.noApplicant)
    ∧ (∀ i, p.indApplicant = some i →
        Applicants.relevant_applicant p = Applicants.Resolved.emailUser i)
    ∧ (p.indApplicant = none → ∀ o, p.orgApplicant = some o →
        Applicants.relevant_applicant p =
          Applicants.Resolved.organisation o) := by
  obtain ⟨org, ind, proxy, sub⟩ := p
  refine ⟨?_, ?_, ?_, ?_, ?_⟩ <;>
    cases org <;> cases ind <;> cases proxy <;>
      simp [Applicants.applicant, Applicants.applicant_type,
        Applicants.specPrecedenceKind, Applicants.relevant_applicant]

/-- Witness for C9 at the proposal with organisation 1, individual 2 and
submitter 3: applicant_type reports the organisation kind, applicant yields
organisation 1, and relevant_applicant yields the individual email user 2. -/
theorem c9_witness :
    Applicants.applicant_type ⟨some 1, some 2, none, some 3⟩ =
      Applicants.specPrecedenceKind ⟨some 1, some 2, none, some 3⟩
    ∧ Applicants.applicant ⟨some 1, some 2, none, some 3⟩ =
      Applicants.Resolved.organisation 1
    ∧ Applicants.relevant_applicant ⟨some 1, some 2, none, some 3⟩ =
      Applicants.Resolved.emailUser 2 :=
  ⟨(c9_applicant_precedence ⟨some 1, some 2, none, some 3⟩).1,
    (c9_applicant_precedence ⟨some 1, some 2, none, some 3⟩).2.1 1 rfl,
    (c9_applicant_precedence ⟨some 1, some 2, none, some 3⟩).2.2.2.1 2 rfl⟩

/-! ## C8 -/

namespace FinalApproval

/-- A proposal that is not with an approver always fails the status check
(or the authorization check before it). -/
theorem roi_error_of_not_with_approver (q : ROIProposal)
    (h : q.processingStatus ≠ ProcessingStatus.withApprover)
    (ca addr : Bool) (d : Option ROIDecision) :
    ∃ e, final_approval_roi ca addr d q = .error e := by
  cases ca
  · exact ⟨.notAuthorized, rfl⟩
  · refine ⟨.notWithApprover, ?_⟩
    unfold final_approval_roi
    rw [if_neg (by simp), if_pos h]

/-- An authorized call on a proposal that is not with an approver fails with
exactly the not-with-an-approver error. -/
theorem roi_not_with_approver_error (q : ROIProposal)
    (h : q.processingStatus ≠ ProcessingStatus.withApprover)
    (addr : Bool) (d : Option ROIDecision) :
    final_approval_roi true addr d q = .error .notWithApprover := by
  unfold final_approval_roi
  rw [if_neg (by simp), if_pos h]

/-- One final_approval request preserves the invariant that at most one
outcome object exists and that holding one forces the proposal out of the
with-approver status. -/
theorem roi_applyCall_preserves (p : ROIProposal)
    (h1 : outcomeCount p ≤ 1)
    (h2 : 1 ≤ outcomeCount p →
      p.processingStatus ≠ ProcessingStatus.withApprover)
    (c : Bool × Bool × Option ROIDecision) :
    outcomeCount (applyFinalApprovalCall c p) ≤ 1 ∧
      (1 ≤ outcomeCount (applyFinalApprovalCall c p) →
        (applyFinalApprovalCall c p).processingStatus ≠
          ProcessingStatus.withApprover) := by
  unfold applyFinalApprovalCall
  cases hres : final_approval_roi c.1 c.2.1 c.2.2 p with
  | error e => exact ⟨h1, h2⟩
  | ok p' =>
    unfold final_approval_roi at hres
    by_cases hca : c.1 = false
    · rw [if_pos hca] at hres
      simp at hres
    · rw [if_neg hca] at hres
      by_cases hst : p.processingStatus ≠ ProcessingStatus.withApprover
      · rw [if_pos hst] at hres
        simp at hres
      · rw [if_neg hst] at hres
        push_neg at hst
        have hnot1 : ¬ 1 ≤ outcomeCount p := fun hge => (h2 hge) hst
        have hgp : p.generatedProposalId = none := by
          cases hv : p.generatedProposalId with
          | none => rfl
          | some v =>
            exfalso
            apply hnot1
            simp [outcomeCount, hv]
        have hgcp : p.generatedCompetitiveProcessId = none := by
          cases hv : p.generatedCompetitiveProcessId with
          | none => rfl
          | some v =>
            exfalso
            apply hnot1
            simp [outcomeCount, hv]
        by_cases haddr : c.2.1 = false
        · rw [if_pos haddr] at hres
          simp at hres
        · rw [if_neg haddr] at hres
          cases hd : c.2.2 with
          | none =>
            rw [hd] at hres
            simp at hres
          | some dec =>
            rw [hd] at hres
            simp only [] at hres
            split at hres
            · simp only [Except.ok.injEq] at hres
              subst hres
              constructor
              · simp [outcomeCount, hgcp]
              · intro _
                simp
            · split at hres
              · split at hres
                · simp at hres
                · simp only [Except.ok.injEq] at hres
                  subst hres
                  constructor
                  · simp [outcomeCount, hgp]
                  · intro _
                    simp
              · simp only [Except.ok.injEq] at hres
                subst hres
                constructor
                · simpa [outcomeCount] using h1
                · intro hge
                  exfalso
                  apply hnot1
                  simpa [outcomeCount] using hge

/-- The invariant holds along any sequence of final_approval requests. -/
theorem roi_run_preserves (p : ROIProposal)
    (h1 : outcomeCount p ≤ 1)
    (h2 : 1 ≤ outcomeCount p →
      p.processingStatus ≠ ProcessingStatus.withApprover)
    (calls : List (Bool × Bool × Option ROIDecision)) :
    outcomeCount (runFinalApprovalCalls calls p) ≤ 1 ∧
      (1 ≤ outcomeCount (runFinalApprovalCalls calls p) →
        (runFinalApprovalCalls calls p).processingStatus ≠
          ProcessingStatus.withApprover) := by
  induction calls generalizing p with
  | nil => exact ⟨h1, h2⟩
  | cons c cs ih =>
    have hstep := roi_applyCall_preserves p h1 h2 c
    have hrw : runFinalApprovalCalls (c :: cs) p
        = runFinalApprovalCalls cs (applyFinalApprovalCall c p) := rfl
    rw [hrw]
    exact ih _ hstep.1 hstep.2

end FinalApproval

/-- C8 counterexample: on a fresh registration-of-interest proposal the
first final_approval call generates the lease/licence proposal and sets
approved_application; the second identical call fails, but with the
not-with-an-approver ValidationError, not an already-generated error as the
claim states. -/
theorem c8_counterexample :
    FinalApproval.final_approval_roi true true
        (some FinalApproval.ROIDecision.approveLeaseLicence)
        ⟨ProcessingStatus.withApprover, none, none, none, 1⟩ =
      Except.ok ⟨ProcessingStatus.approvedApplication, some 1, none,
        some FinalApproval.ROIDecision.approveLeaseLicence, 2⟩
    ∧ FinalApproval.final_approval_roi true true
        (some FinalApproval.ROIDecision.approveLeaseLicence)
        ⟨ProcessingStatus.approvedApplication, some 1, none,
          some FinalApproval.ROIDecision.approveLeaseLicence, 2⟩ =
      Except.error FinalApproval.ApprovalErr.notWithApprover
    ∧ FinalApproval.ApprovalErr.notWithApprover ≠
      FinalApproval.ApprovalErr.alreadyGeneratedCompetitiveProcess := by
  refine ⟨rfl, rfl, by decide⟩

/-- C8 (amended): over any sequence of final_approval calls a fresh
registration-of-interest proposal generates at most one outcome object
(lease/licence proposal or competitive process); once one is generated every
further final_approval call fails, and an authorized one fails with the
not-with-an-approver ValidationError rather than an already-generated
error. -/
theorem c8_final_approval_roi_single_outcome (p0 : FinalApproval.ROIProposal)
    (hp : p0.generatedProposalId = none)
    (hcp : p0.generatedCompetitiveProcessId = none) :
    (∀ calls : List (Bool × Bool × Option FinalApproval.ROIDecision),
      FinalApproval.outcomeCount
        (FinalApproval.runFinalApprovalCalls calls p0) ≤ 1)
    ∧ (∀ calls : List (Bool × Bool × Option FinalApproval.ROIDecision),
        1 ≤ FinalApproval.outcomeCount
            (FinalApproval.runFinalApprovalCalls calls p0) →
        (∀ ca addr : Bool, ∀ d : Option FinalApproval.ROIDecision,
          ∃ e, FinalApproval.final_approval_roi ca addr d
            (FinalApproval.runFinalApprovalCalls calls p0) = Except.error e)
        ∧ (∀ addr : Bool, ∀ d : Option FinalApproval.ROIDecision,
          FinalApproval.final_approval_roi true addr d
              (FinalApproval.runFinalApprovalCalls calls p0) =
            Except.error FinalApproval.ApprovalErr.notWithApprover)) := by
  have hc0 : FinalApproval.outcomeCount p0 = 0 := by
    simp [FinalApproval.outcomeCount, hp, hcp]
  have hbase1 : FinalApproval.outcomeCount p0 ≤ 1 := by omega
  have hbase2 : 1 ≤ FinalApproval.outcomeCount p0 →
      p0.processingStatus ≠ ProcessingStatus.withApprover := by
    intro hge
    omega
  constructor
  · intro calls
    exact (FinalApproval.roi_run_preserves p0 hbase1 hbase2 calls).1
  · intro calls hge
    have hnst := (FinalApproval.roi_run_preserves p0 hbase1 hbase2 calls).2 hge
    exact ⟨fun ca addr d =>
        FinalApproval.roi_error_of_not_with_approver _ hnst ca addr d,
      fun addr d =>
        FinalApproval.roi_not_with_approver_error _ hnst addr d⟩

/-- Witness for C8 at a fresh proposal and the two-call sequence of the
counterexample scenario: after the first approving call at most one outcome
exists, and the follow-up authorized call fails with the
not-with-an-approver error. -/
theorem c8_witness :
    FinalApproval.outcomeCount
      (FinalApproval.runFinalApprovalCalls
        [(true, true, some FinalApproval.ROIDecision.approveLeaseLicence)]
        ⟨ProcessingStatus.withApprover, none, none, none, 1⟩) ≤ 1
    ∧ FinalApproval.final_approval_roi true true
        (some FinalApproval.ROIDecision.approveLeaseLicence)
        (FinalApproval.runFinalApprovalCalls
          [(true, true, some FinalApproval.ROIDecision.approveLeaseLicence)]
          ⟨ProcessingStatus.withApprover, none, none, none, 1⟩) =
      Except.error FinalApproval.ApprovalErr.notWithApprover :=
  ⟨(c8_final_approval_roi_single_outcome
      ⟨ProcessingStatus.withApprover, none, none, none, 1⟩ rfl rfl).1
      [(true, true, some FinalApproval.ROIDecision.approveLeaseLicence)],
    ((c8_final_approval_roi_single_outcome
      ⟨ProcessingStatus.withApprover, none, none, none, 1⟩ rfl rfl).2
      [(true, true, some FinalApproval.ROIDecision.approveLeaseLicence)]
      (by decide)).2 true
        (some FinalApproval.ROIDecision.approveLeaseLicence)⟩

/-! ## C2 -/

namespace LicenceDocuments

/-- When the document-count validation fails, the whole final_approval
transaction rolls back: the call reports the validation error and the stored
state is unchanged, in particular the approval row written before the
validation does not persist. -/
theorem final_approval_newLL_error (s : LLState) (pid atid : ℕ)
    (e : LLApprovalErr)
    (hst : s.processingStatus = ProcessingStatus.withApprover)
    (he : generate_license_documents_check atid s.docs = .error e) :
    final_approval_newLL true true pid atid s = (.error e, s) := by
  have hbody : final_approval_newLL_body true true pid atid s = .error e := by
    unfold final_approval_newLL_body
    rw [if_neg (show ¬(true = false) by simp)]
    rw [if_neg (show ¬(s.processingStatus ≠ ProcessingStatus.withApprover) by
      simp [hst])]
    rw [if_neg (show ¬(true = false) by simp)]
    cases hfound : s.approvals.find?
        (fun a => decide (a.currentProposal = pid)) with
    | none => simp only [hfound, he]
    | some a => simp only [hfound, he]
  unfold final_approval_newLL
  rw [hbody]

end LicenceDocuments

/-- C2: final_approval on a new lease/licence proposal whose attached
assessor documents (for the issued approval type) do not contain exactly one
document in each of the license-document, cover-letter and sign-off-sheet
categories fails with a ValidationError naming an offending category and its
count, and leaves the database unchanged: no Approval record persists and no
other partial writes remain. -/
theorem c2_final_approval_missing_documents (s : LicenceDocuments.LLState)
    (pid atid : ℕ)
    (hst : s.processingStatus = ProcessingStatus.withApprover)
    (hbad : ¬ (LicenceDocuments.countCategory .licenseDocument atid s.docs = 1
      ∧ LicenceDocuments.countCategory .coverLetter atid s.docs = 1
      ∧ LicenceDocuments.countCategory .signOffSheet atid s.docs = 1)) :
    (LicenceDocuments.final_approval_newLL true true pid atid s).2 = s
    ∧ ∃ n : ℕ, n ≠ 1 ∧
      (((LicenceDocuments.final_approval_newLL true true pid atid s).1 =
          Except.error (LicenceDocuments.LLApprovalErr.licenseDocumentCount n)
        ∧ LicenceDocuments.countCategory .licenseDocument atid s.docs = n)
      ∨ ((LicenceDocuments.final_approval_newLL true true pid atid s).1 =
          Except.error (LicenceDocuments.LLApprovalErr.coverLetterCount n)
        ∧ LicenceDocuments.countCategory .coverLetter atid s.docs = n)
      ∨ ((LicenceDocuments.final_approval_newLL true true pid atid s).1 =
          Except.error (LicenceDocuments.LLApprovalErr.signOffSheetCount n)
        ∧ LicenceDocuments.countCategory .signOffSheet atid s.docs = n)) := by
  by_cases hlic :
      LicenceDocuments.countCategory .licenseDocument atid s.docs = 1
  · by_cases hcov :
        LicenceDocuments.countCategory .coverLetter atid s.docs = 1
    · have hsos :
          LicenceDocuments.countCategory .signOffSheet atid s.docs ≠ 1 :=
        fun h => hbad ⟨hlic, hcov, h⟩
      have hcheck : LicenceDocuments.generate_license_documents_check atid
          s.docs = .error (.signOffSheetCount
            (LicenceDocuments.countCategory .signOffSheet atid s.docs)) := by
        unfold LicenceDocuments.generate_license_documents_check
        simp [hlic, hcov, hsos]
      have hfin := LicenceDocuments.final_approval_newLL_error s pid atid _
        hst hcheck
      refine ⟨by rw [hfin], ?_⟩
      exact ⟨_, hsos, Or.inr (Or.inr ⟨by rw [hfin], rfl⟩)⟩
    · have hcheck : LicenceDocuments.generate_license_documents_check atid
          s.docs = .error (.coverLetterCount
            (LicenceDocuments.countCategory .coverLetter atid s.docs)) := by
        unfold LicenceDocuments.generate_license_documents_check
        simp [hlic, hcov]
      have hfin := LicenceDocuments.final_approval_newLL_error s pid atid _
        hst hcheck
      refine ⟨by rw [hfin], ?_⟩
      exact ⟨_, hcov, Or.inr (Or.inl ⟨by rw [hfin], rfl⟩)⟩
  · have hcheck : LicenceDocuments.generate_license_documents_check atid
        s.docs = .error (.licenseDocumentCount
          (LicenceDocuments.countCategory .licenseDocument atid s.docs)) := by
      unfold LicenceDocuments.generate_license_documents_check
      simp [hlic]
    have hfin := LicenceDocuments.final_approval_newLL_error s pid atid _
      hst hcheck
    refine ⟨by rw [hfin], ?_⟩
    exact ⟨_, hlic, Or.inl ⟨by rw [hfin], rfl⟩⟩

/-- Witness for C2 at a concrete proposal missing its cover letter: the call
fails with the cover-letter count ValidationError and the state, in
particular the empty Approval table, is unchanged. -/
theorem c2_witness :
    (LicenceDocuments.final_approval_newLL true true 3 7 sampleLLStateC2).2 =
      sampleLLStateC2
    ∧ ∃ n : ℕ, n ≠ 1 ∧
      (((LicenceDocuments.final_approval_newLL true true 3 7
            sampleLLStateC2).1 =
          Except.error (LicenceDocuments.LLApprovalErr.licenseDocumentCount n)
        ∧ LicenceDocuments.countCategory .licenseDocument 7
            sampleLLStateC2.docs = n)
      ∨ ((LicenceDocuments.final_approval_newLL true true 3 7
            sampleLLStateC2).1 =
          Except.error (LicenceDocuments.LLApprovalErr.coverLetterCount n)
        ∧ LicenceDocuments.countCategory .coverLetter 7
            sampleLLStateC2.docs = n)
      ∨ ((LicenceDocuments.final_approval_newLL true true 3 7
            sampleLLStateC2).1 =
          Except.error (LicenceDocuments.LLApprovalErr.signOffSheetCount n)
        ∧ LicenceDocuments.countCategory .signOffSheet 7
            sampleLLStateC2.docs = n)) :=
  c2_final_approval_missing_documents sampleLLStateC2 3 7 rfl (by decide)

/-! ## List lemmas shared by the requirement reconciliation proofs -/

theorem map_id_of_mem {α : Type} (l : List α) (u : α → α)
    (h : ∀ x ∈ l, u x = x) : l.map u = l := by
  induction l with
  | nil => rfl
  | cons a l ih =>
    rw [List.map_cons, h a (by simp), ih (fun x hx => h x (by simp [hx]))]

namespace Requirements

theorem getOrCreate_of_filter_nil (pid : ℕ) (code : StdReqCode) (db : ReqDB)
    (h : db.rows.filter (keyFilter pid code) = []) :
    getOrCreate pid code db =
      .ok (defaultRow db.nextRid pid code, true,
        ⟨db.rows ++ [defaultRow db.nextRid pid code], db.nextRid + 1⟩) := by
  unfold getOrCreate
  rw [h]

theorem getOrCreate_of_filter_single (pid : ℕ) (code : StdReqCode)
    (db : ReqDB) (r : ReqRow)
    (h : db.rows.filter (keyFilter pid code) = [r]) :
    getOrCreate pid code db = .ok (r, false, db) := by
  unfold getOrCreate
  rw [h]

theorem getOrCreateNotDeleted_of_filter_nil (pid : ℕ) (code : StdReqCode)
    (db : ReqDB)
    (h : db.rows.filter (keyFilterND pid code) = []) :
    getOrCreateNotDeleted pid code db =
      .ok (defaultRow db.nextRid pid code, true,
        ⟨db.rows ++ [defaultRow db.nextRid pid code], db.nextRid + 1⟩) := by
  unfold getOrCreateNotDeleted
  rw [h]

theorem getOrCreateNotDeleted_of_filter_single (pid : ℕ) (code : StdReqCode)
    (db : ReqDB) (r : ReqRow)
    (h : db.rows.filter (keyFilterND pid code) = [r]) :
    getOrCreateNotDeleted pid code db = .ok (r, false, db) := by
  unfold getOrCreateNotDeleted
  rw [h]

/-- The shape of the reconciliation run for the in-arrears charge method with
monthly cadence: soft-delete the non-deleted quarterly rows of the proposal,
get-or-create the monthly row (reviving it when it already existed), then the
annual section. -/
theorem run_arrears_monthly_eq (pid : ℕ) (start : Date) (db : ReqDB) :
    update_gross_turnover_requirements .grossTurnoverArrears .monthly pid
        start db =
      (match getOrCreate pid .gtMonthly
          (updateWhere (fun r =>
              decide (r.code = StdReqCode.gtQuarterly) &&
                decide (r.proposalId = pid) &&
                decide (r.isDeleted = false))
            (fun r => { r with isDeleted := true }) db) with
       | .error e => .error e
       | .ok (row, created, db3) =>
         updateAnnualSection pid start
           (if created then db3
            else updateWhere (fun r => decide (r.rid = row.rid))
              (fun r => { r with isDeleted := false }) db3)) := by
  have h1 : (ChargeMethodKey.grossTurnoverArrears =
      ChargeMethodKey.otherMethod) = False := by simp
  have h2 : (ChargeMethodKey.grossTurnoverArrears =
      ChargeMethodKey.grossTurnoverAdvance) = False := by simp
  have h3 : (RepetitionKey.monthly = RepetitionKey.quarterly) = False := by
    simp
  have h4 : (RepetitionKey.monthly = RepetitionKey.monthly) = True := by simp
  have h5 : (ChargeMethodKey.grossTurnoverArrears =
      ChargeMethodKey.grossTurnoverArrears) = True := by simp
  cases hg : getOrCreate pid .gtMonthly
      (updateWhere (fun r =>
          decide (r.code = StdReqCode.gtQuarterly) &&
            decide (r.proposalId = pid) &&
            decide (r.isDeleted = false))
        (fun r => { r with isDeleted := true }) db) with
  | error e =>
    simp only [update_gross_turnover_requirements, h1, h2, h3, h4, h5,
      if_true, if_false, hg]
  | ok t =>
    obtain ⟨row, created, db3⟩ := t
    cases created <;>
      simp only [update_gross_turnover_requirements, h1, h2, h3, h4, h5,
        if_true, if_false, hg, Bool.false_eq_true, Bool.true_eq_false]

theorem updateAnnualSection_of_nil (pid : ℕ) (start : Date) (db : ReqDB)
    (h : db.rows.filter (keyFilterND pid .gtAnnual) = []) :
    updateAnnualSection pid start db =
      .ok (updateWhere (fun r => decide (r.rid = db.nextRid))
        (annualSchedSet start)
        ⟨db.rows ++ [defaultRow db.nextRid pid .gtAnnual],
          db.nextRid + 1⟩) := by
  unfold updateAnnualSection
  rw [getOrCreateNotDeleted_of_filter_nil pid .gtAnnual db h]
  rfl

theorem updateAnnualSection_of_single (pid : ℕ) (start : Date) (db : ReqDB)
    (a : ReqRow)
    (h : db.rows.filter (keyFilterND pid .gtAnnual) = [a]) :
    updateAnnualSection pid start db =
      .ok (updateWhere (fun r => decide (r.rid = a.rid))
        (annualSchedSet start) db) := by
  unfold updateAnnualSection
  rw [getOrCreateNotDeleted_of_filter_single pid .gtAnnual db a h]

end Requirements

theorem filter_map_pointwise {α : Type} (u : α → α) (p : α → Bool)
    (l : List α) (h : ∀ x ∈ l, p (u x) = p x) :
    (l.map u).filter p = (l.filter p).map u := by
  induction l with
  | nil => rfl
  | cons a l ih =>
    rw [List.map_cons, List.filter_cons, List.filter_cons]
    have ha := h a (by simp)
    have ihx := ih (fun x hx => h x (by simp [hx]))
    by_cases hp : p a = true
    · rw [ha, hp, ihx]
      simp
    · have hpf : p a = false := by
        cases hpa : p a
        · rfl
        · exact absurd hpa hp
      rw [ha, hpf, ihx]
      simp

namespace Requirements

theorem uniq_of_map (l : List ReqRow) (u : ReqRow → ReqRow)
    (hu : ∀ r, (u r).rid = r.rid)
    (h : ∀ a ∈ l, ∀ b ∈ l, a.rid = b.rid → a = b) :
    ∀ a ∈ l.map u, ∀ b ∈ l.map u, a.rid = b.rid → a = b := by
  intro a ha b hb hab
  obtain ⟨a0, ha0, rfl⟩ := List.mem_map.mp ha
  obtain ⟨b0, hb0, rfl⟩ := List.mem_map.mp hb
  rw [hu a0, hu b0] at hab
  rw [h a0 ha0 b0 hb0 hab]

theorem fresh_of_map (l : List ReqRow) (n : ℕ) (u : ReqRow → ReqRow)
    (hu : ∀ r, (u r).rid = r.rid)
    (h : ∀ r ∈ l, r.rid < n) :
    ∀ r ∈ l.map u, r.rid < n := by
  intro r hr
  obtain ⟨r0, hr0, rfl⟩ := List.mem_map.mp hr
  rw [hu r0]
  exact h r0 hr0

theorem uniq_append_single (l : List ReqRow) (x : ReqRow)
    (hl : ∀ a ∈ l, ∀ b ∈ l, a.rid = b.rid → a = b)
    (hx : ∀ r ∈ l, r.rid ≠ x.rid) :
    ∀ a ∈ l ++ [x], ∀ b ∈ l ++ [x], a.rid = b.rid → a = b := by
  intro a ha b hb hab
  rw [List.mem_append, List.mem_singleton] at ha hb
  rcases ha with ha | rfl <;> rcases hb with hb | rfl
  · exact hl a ha b hb hab
  · exact absurd hab (hx a ha)
  · exact absurd hab.symm (hx b hb)
  · rfl

theorem fresh_append_single (l : List ReqRow) (x : ReqRow) (n : ℕ)
    (hl : ∀ r ∈ l, r.rid < n) (hx : x.rid < n) :
    ∀ r ∈ l ++ [x], r.rid < n := by
  intro r hr
  rw [List.mem_append, List.mem_singleton] at hr
  rcases hr with hr | rfl
  · exact hl r hr
  · exact hx

theorem rid_ite_isDeleted (c : ReqRow → Bool) (b : Bool) (r : ReqRow) :
    (if c r = true then { r with isDeleted := b } else r).rid = r.rid := by
  split <;> rfl

theorem rid_ite_annualSched (c : ReqRow → Bool) (start : Date) (r : ReqRow) :
    (if c r = true then annualSchedSet start r else r).rid = r.rid := by
  split <;> rfl

theorem proposalId_ite_annualSched (c : ReqRow → Bool) (start : Date)
    (r : ReqRow) :
    (if c r = true then annualSchedSet start r else r).proposalId
      = r.proposalId := by
  split <;> rfl

theorem code_ite_annualSched (c : ReqRow → Bool) (start : Date) (r : ReqRow) :
    (if c r = true then annualSchedSet start r else r).code = r.code := by
  split <;> rfl

theorem isDeleted_ite_annualSched (c : ReqRow → Bool) (start : Date)
    (r : ReqRow) :
    (if c r = true then annualSchedSet start r else r).isDeleted
      = r.isDeleted := by
  split <;> rfl

/-- Restricting a key filter by the non-deleted flag. -/
theorem filterND_eq (pid : ℕ) (code : StdReqCode) (l : List ReqRow) :
    l.filter (keyFilterND pid code) =
      (l.filter (keyFilter pid code)).filter
        (fun r => decide (r.isDeleted = false)) := by
  rw [List.filter_filter]
  apply List.filter_congr
  intro x _
  exact Bool.and_comm _ _

/-- Everything the annual tail section does, given that at most one
non-deleted annual row exists: it succeeds, it either rewrites the schedule
fields of the single existing row in place (preserving rid, proposal, code
and the deletion flag of every row) or appends one fresh non-deleted annual
row, and afterwards exactly one non-deleted annual row exists for the
proposal. -/
theorem updateAnnualSection_master (pid : ℕ) (start : Date) (db : ReqDB)
    (hfresh : freshRid db)
    (hann : (db.rows.filter (keyFilterND pid .gtAnnual)).length ≤ 1) :
    ∃ db' : ReqDB,
      updateAnnualSection pid start db = .ok db'
      ∧ AnnualStruct pid start db db'
      ∧ (db'.rows.filter (keyFilterND pid .gtAnnual)).length = 1 := by
  unfold AnnualStruct
  cases ha : db.rows.filter (keyFilterND pid .gtAnnual) with
  | nil =>
    refine ⟨_, updateAnnualSection_of_nil pid start db ha, ?_, ?_⟩
    · right
      refine ⟨?_, rfl, rfl⟩
      show ((db.rows ++ [defaultRow db.nextRid pid .gtAnnual]).map
          (fun r => if decide (r.rid = db.nextRid) = true then
            annualSchedSet start r else r)) = _
      rw [List.map_append]
      congr 1
      · apply map_id_of_mem
        intro r hr
        rw [if_neg]
        simp only [decide_eq_true_eq]
        exact Nat.ne_of_lt (hfresh r hr)
      · show [if decide ((defaultRow db.nextRid pid .gtAnnual).rid
            = db.nextRid) = true then _ else _] = _
        rw [if_pos (by simp [defaultRow])]
    · show (((db.rows ++ [defaultRow db.nextRid pid .gtAnnual]).map
          (fun r => if decide (r.rid = db.nextRid) = true then
            annualSchedSet start r else r)).filter
            (keyFilterND pid .gtAnnual)).length = 1
      rw [List.map_append]
      have h1 : db.rows.map (fun r =>
          if decide (r.rid = db.nextRid) = true then
            annualSchedSet start r else r) = db.rows := by
        apply map_id_of_mem
        intro r hr
        rw [if_neg]
        simp only [decide_eq_true_eq]
        exact Nat.ne_of_lt (hfresh r hr)
      rw [h1, List.filter_append, ha]
      have h2 : ([defaultRow db.nextRid pid .gtAnnual].map (fun r =>
          if decide (r.rid = db.nextRid) = true then
            annualSchedSet start r else r)) =
          [annualSchedSet start (defaultRow db.nextRid pid .gtAnnual)] := by
        show [if decide ((defaultRow db.nextRid pid .gtAnnual).rid
            = db.nextRid) = true then _ else _] = _
        rw [if_pos (by simp [defaultRow])]
      rw [h2]
      simp [keyFilterND, annualSchedSet, defaultRow]
  | cons a tl =>
    cases tl with
    | nil =>
      refine ⟨_, updateAnnualSection_of_single pid start db a ha, ?_, ?_⟩
      · left
        refine ⟨fun r => if decide (r.rid = a.rid) = true then
            annualSchedSet start r else r, ?_, ?_, ?_, ?_, rfl, rfl, rfl⟩
        · exact fun r => rid_ite_annualSched
            (fun x => decide (x.rid = a.rid)) start r
        · exact fun r => proposalId_ite_annualSched
            (fun x => decide (x.rid = a.rid)) start r
        · exact fun r => code_ite_annualSched
            (fun x => decide (x.rid = a.rid)) start r
        · exact fun r => isDeleted_ite_annualSched
            (fun x => decide (x.rid = a.rid)) start r
      · show ((db.rows.map (fun r => if decide (r.rid = a.rid) = true then
            annualSchedSet start r else r)).filter
              (keyFilterND pid .gtAnnual)).length = 1
        rw [filter_map_pointwise _ _ _ (by
          intro x _
          split <;> rfl), ha]
        rfl
    | cons b tl2 =>
      rw [ha] at hann
      simp at hann

theorem keyFilter_congr (pid : ℕ) (code : StdReqCode) (u : ReqRow → ReqRow)
    (h1 : ∀ r, (u r).proposalId = r.proposalId)
    (h2 : ∀ r, (u r).code = r.code) (r : ReqRow) :
    keyFilter pid code (u r) = keyFilter pid code r := by
  unfold keyFilter
  rw [h1 r, h2 r]

theorem keyFilterND_congr (pid : ℕ) (code : StdReqCode) (u : ReqRow → ReqRow)
    (h1 : ∀ r, (u r).proposalId = r.proposalId)
    (h2 : ∀ r, (u r).code = r.code)
    (h3 : ∀ r, (u r).isDeleted = r.isDeleted) (r : ReqRow) :
    keyFilterND pid code (u r) = keyFilterND pid code r := by
  unfold keyFilterND
  rw [h1 r, h2 r, h3 r]

theorem keyFilter_ite_isDeleted (c : ReqRow → Bool) (b : Bool)
    (pid : ℕ) (code : StdReqCode) (r : ReqRow) :
    keyFilter pid code (if c r = true then { r with isDeleted := b } else r)
      = keyFilter pid code r := by
  split <;> rfl

/-- The quarterly soft-delete pass does not change whether a row is a
non-deleted annual row, because it only touches quarterly rows. -/
theorem keyFilterND_annual_qdel (pid pid2 : ℕ) (x : ReqRow) :
    keyFilterND pid .gtAnnual
      (if (decide (x.code = StdReqCode.gtQuarterly) &&
          decide (x.proposalId = pid2) &&
          decide (x.isDeleted = false)) = true
        then { x with isDeleted := true } else x)
      = keyFilterND pid .gtAnnual x := by
  by_cases h : (decide (x.code = StdReqCode.gtQuarterly) &&
      decide (x.proposalId = pid2) && decide (x.isDeleted = false)) = true
  · rw [if_pos h]
    have hcode : x.code = StdReqCode.gtQuarterly := by
      simp only [Bool.and_eq_true, decide_eq_true_eq] at h
      exact h.1.1
    simp [keyFilterND, hcode]
  · rw [if_neg h]

/-- The quarterly deletion conclusion survives the annual tail section. -/
theorem quarterly_deleted_through_annual (pid : ℕ) (start : Date)
    (dbIn dbOut : ReqDB) (hstruct : AnnualStruct pid start dbIn dbOut)
    (hP1 : ∀ r ∈ dbIn.rows, r.proposalId = pid →
        r.code = StdReqCode.gtQuarterly → r.isDeleted = true) :
    ∀ r ∈ dbOut.rows, r.proposalId = pid →
      r.code = StdReqCode.gtQuarterly → r.isDeleted = true := by
  intro r hr hpid hcode
  rcases hstruct with ⟨u, hurid, hupid, hucode, hudel, hrows, _, _⟩ |
      ⟨hrows, _, _⟩
  · rw [hrows] at hr
    obtain ⟨r0, hr0, rfl⟩ := List.mem_map.mp hr
    rw [hudel r0]
    exact hP1 r0 hr0 (by rw [← hupid r0]; exact hpid)
      (by rw [← hucode r0]; exact hcode)
  · rw [hrows, List.mem_append, List.mem_singleton] at hr
    rcases hr with hr | rfl
    · exact hP1 r hr hpid hcode
    · exact absurd hcode (by simp [annualSchedSet, defaultRow])

/-- Row ids survive the annual tail section. -/
theorem rids_through_annual (pid : ℕ) (start : Date)
    (dbIn dbOut : ReqDB) (hstruct : AnnualStruct pid start dbIn dbOut) :
    ∀ r ∈ dbIn.rows, ∃ r' ∈ dbOut.rows, r'.rid = r.rid := by
  intro r hr
  rcases hstruct with ⟨u, hurid, _, _, _, hrows, _, _⟩ | ⟨hrows, _, _⟩
  · exact ⟨u r, by rw [hrows]; exact List.mem_map_of_mem u hr, hurid r⟩
  · exact ⟨r, by rw [hrows]; exact List.mem_append_left _ hr, rfl⟩

/-- Key uniqueness and sequence freshness survive the annual tail section. -/
theorem wf_through_annual (pid : ℕ) (start : Date)
    (dbIn dbOut : ReqDB) (hstruct : AnnualStruct pid start dbIn dbOut)
    (huniq : uniqRid dbIn) (hfresh : freshRid dbIn) :
    uniqRid dbOut ∧ freshRid dbOut := by
  rcases hstruct with ⟨u, hurid, _, _, _, hrows, hnext, _⟩ |
      ⟨hrows, hnext, _⟩
  · constructor
    · intro a ha b hb hab
      rw [hrows] at ha hb
      exact uniq_of_map dbIn.rows u hurid huniq a ha b hb hab
    · intro r hr
      rw [hrows] at hr
      rw [hnext]
      exact fresh_of_map dbIn.rows dbIn.nextRid u hurid hfresh r hr
  · constructor
    · intro a ha b hb hab
      rw [hrows] at ha hb
      refine uniq_append_single dbIn.rows _ huniq ?_ a ha b hb hab
      intro r hr
      have : r.rid < dbIn.nextRid := hfresh r hr
      simp only [annualSchedSet, defaultRow]
      omega
    · intro r hr
      rw [hrows] at hr
      rw [hnext]
      refine fresh_append_single dbIn.rows _ (dbIn.nextRid + 1) ?_ ?_ r hr
      · intro x hx
        exact Nat.lt_succ_of_lt (hfresh x hx)
      · simp only [annualSchedSet, defaultRow]
        omega

/-- The monthly requirement counts survive the annual tail section. -/
theorem monthly_counts_through_annual (pid : ℕ) (start : Date)
    (dbIn dbOut : ReqDB) (hstruct : AnnualStruct pid start dbIn dbOut)
    (mrow : ReqRow)
    (hMkey : dbIn.rows.filter (keyFilter pid .gtMonthly) = [mrow])
    (hmnd : mrow.isDeleted = false) :
    (dbOut.rows.filter (keyFilter pid .gtMonthly)).length = 1
    ∧ (dbOut.rows.filter (keyFilterND pid .gtMonthly)).length = 1 := by
  rcases hstruct with ⟨u, _, hupid, hucode, hudel, hrows, _, _⟩ |
      ⟨hrows, _, _⟩
  · have hkey : dbOut.rows.filter (keyFilter pid .gtMonthly)
        = [u mrow] := by
      rw [hrows, filter_map_pointwise u _ _
        (fun x _ => keyFilter_congr pid .gtMonthly u hupid hucode x), hMkey]
      rfl
    constructor
    · rw [hkey]
      rfl
    · rw [filterND_eq, hkey]
      have : (u mrow).isDeleted = false := by rw [hudel mrow, hmnd]
      simp [this]
  · have hnewKey : keyFilter pid .gtMonthly
        (annualSchedSet start (defaultRow dbIn.nextRid pid .gtAnnual))
          = false := by
      simp [keyFilter, annualSchedSet, defaultRow]
    have hkey : dbOut.rows.filter (keyFilter pid .gtMonthly) = [mrow] := by
      rw [hrows, List.filter_append, hMkey]
      simp [hnewKey]
    constructor
    · rw [hkey]
      rfl
    · rw [filterND_eq, hkey]
      simp [hmnd]

/-- The row-count effect of the annual tail section. -/
theorem length_through_annual (pid : ℕ) (start : Date)
    (dbIn dbOut : ReqDB) (hstruct : AnnualStruct pid start dbIn dbOut) :
    dbOut.rows.length = dbIn.rows.length
      + (if (dbIn.rows.filter (keyFilterND pid .gtAnnual)).length = 0
          then 1 else 0) := by
  rcases hstruct with ⟨u, _, _, _, _, hrows, _, hlen⟩ | ⟨hrows, _, hnil⟩
  · rw [hrows, List.length_map, hlen]
    simp
  · rw [hrows, List.length_append, hnil]
    simp

/-- Everything the in-arrears monthly reconciliation run does to a
well-formed requirement table holding at most one monthly row and at most
one non-deleted annual row for the proposal: it succeeds; every quarterly
gross-turnover row of the proposal ends soft-deleted; no row is hard
deleted; exactly one monthly row exists afterwards and it is not deleted;
exactly one non-deleted annual row exists afterwards; the table grew by
exactly one row per get-or-create that had to create; and the table is still
well formed. -/
theorem run_arrears_monthly_master (pid : ℕ) (start : Date) (db : ReqDB)
    (huniq : uniqRid db) (hfresh : freshRid db)
    (hmono : (db.rows.filter (keyFilter pid .gtMonthly)).length ≤ 1)
    (hann : (db.rows.filter (keyFilterND pid .gtAnnual)).length ≤ 1) :
    ∃ db' : ReqDB,
      update_gross_turnover_requirements .grossTurnoverArrears .monthly pid
          start db = .ok db'
      ∧ (∀ r ∈ db'.rows, r.proposalId = pid →
          r.code = StdReqCode.gtQuarterly → r.isDeleted = true)
      ∧ (∀ r ∈ db.rows, ∃ r' ∈ db'.rows, r'.rid = r.rid)
      ∧ (db'.rows.filter (keyFilterND pid .gtMonthly)).length = 1
      ∧ (db'.rows.filter (keyFilter pid .gtMonthly)).length = 1
      ∧ (db'.rows.filter (keyFilterND pid .gtAnnual)).length = 1
      ∧ db'.rows.length = db.rows.length
          + (if (db.rows.filter (keyFilter pid .gtMonthly)).length = 0
              then 1 else 0)
          + (if (db.rows.filter (keyFilterND pid .gtAnnual)).length = 0
              then 1 else 0)
      ∧ uniqRid db' ∧ freshRid db' := by
  set u_q : ReqRow → ReqRow := fun r =>
    if (decide (r.code = StdReqCode.gtQuarterly) &&
        decide (r.proposalId = pid) && decide (r.isDeleted = false)) = true
      then { r with isDeleted := true } else r with hu_q
  set db2 : ReqDB := ⟨db.rows.map u_q, db.nextRid⟩ with hdb2def
  have hdb2 : updateWhere (fun r =>
      decide (r.code = StdReqCode.gtQuarterly) &&
        decide (r.proposalId = pid) && decide (r.isDeleted = false))
      (fun r => { r with isDeleted := true }) db = db2 := rfl
  have hqrid : ∀ r, (u_q r).rid = r.rid := fun r =>
    rid_ite_isDeleted (fun x =>
      decide (x.code = StdReqCode.gtQuarterly) &&
        decide (x.proposalId = pid) && decide (x.isDeleted = false)) true r
  have hqkeyM : ∀ r, keyFilter pid .gtMonthly (u_q r)
      = keyFilter pid .gtMonthly r := fun r =>
    keyFilter_ite_isDeleted (fun x =>
      decide (x.code = StdReqCode.gtQuarterly) &&
        decide (x.proposalId = pid) && decide (x.isDeleted = false)) true
      pid .gtMonthly r
  have hqidM : ∀ r, keyFilter pid .gtMonthly r = true → u_q r = r := by
    intro r hr
    have hcode : r.code = StdReqCode.gtMonthly := by
      simp only [keyFilter, Bool.and_eq_true, decide_eq_true_eq] at hr
      exact hr.2
    rw [hu_q]
    simp only []
    rw [if_neg]
    simp [hcode]
  have hMfilter : db2.rows.filter (keyFilter pid .gtMonthly)
      = db.rows.filter (keyFilter pid .gtMonthly) := by
    show (db.rows.map u_q).filter _ = _
    rw [filter_map_pointwise u_q _ db.rows (fun x _ => hqkeyM x)]
    apply map_id_of_mem
    intro x hx
    exact hqidM x (List.mem_filter.mp hx).2
  have hqidA : ∀ x ∈ db.rows, keyFilterND pid .gtAnnual x = true →
      u_q x = x := by
    intro x _ hx
    have hcode : x.code = StdReqCode.gtAnnual := by
      simp only [keyFilterND, Bool.and_eq_true, decide_eq_true_eq] at hx
      exact hx.1.2
    rw [hu_q]
    simp only []
    rw [if_neg]
    simp [hcode]
  have hAnnfilter2 : db2.rows.filter (keyFilterND pid .gtAnnual)
      = db.rows.filter (keyFilterND pid .gtAnnual) := by
    show (db.rows.map u_q).filter _ = _
    rw [filter_map_pointwise u_q _ db.rows
      (fun x _ => keyFilterND_annual_qdel pid pid x)]
    apply map_id_of_mem
    intro x hx
    have hx' := List.mem_filter.mp hx
    exact hqidA x hx'.1 hx'.2
  have huniq2 : ∀ a ∈ db2.rows, ∀ b ∈ db2.rows, a.rid = b.rid → a = b := by
    show ∀ a ∈ db.rows.map u_q, _
    exact uniq_of_map db.rows u_q hqrid huniq
  have hfresh2 : ∀ r ∈ db2.rows, r.rid < db.nextRid := by
    show ∀ r ∈ db.rows.map u_q, _
    exact fresh_of_map db.rows db.nextRid u_q hqrid hfresh
  have hP1_2 : ∀ r ∈ db2.rows, r.proposalId = pid →
      r.code = StdReqCode.gtQuarterly → r.isDeleted = true := by
    show ∀ r ∈ db.rows.map u_q, _
    intro r hr hpid hcode
    obtain ⟨r0, hr0, rfl⟩ := List.mem_map.mp hr
    rw [hu_q] at hpid hcode ⊢
    simp only [] at hpid hcode ⊢
    by_cases hcond : (decide (r0.code = StdReqCode.gtQuarterly) &&
        decide (r0.proposalId = pid) && decide (r0.isDeleted = false)) = true
    · rw [if_pos hcond]
    · rw [if_neg hcond] at hpid hcode ⊢
      simp only [Bool.and_eq_true, decide_eq_true_eq, not_and] at hcond
      cases hdel : r0.isDeleted
      · exact absurd hdel (hcond ⟨hcode, hpid⟩)
      · rfl
  cases hm : db.rows.filter (keyFilter pid .gtMonthly) with
  | nil =>
    have hm2 : db2.rows.filter (keyFilter pid .gtMonthly) = [] := by
      rw [hMfilter, hm]
    have hgoc := getOrCreate_of_filter_nil pid .gtMonthly db2 hm2
    set newm := defaultRow db.nextRid pid .gtMonthly with hnewm
    set db3 : ReqDB := ⟨db.rows.map u_q ++ [newm], db.nextRid + 1⟩ with hdb3
    have hrun : update_gross_turnover_requirements .grossTurnoverArrears
        .monthly pid start db = updateAnnualSection pid start db3 := by
      rw [run_arrears_monthly_eq, hdb2, hgoc]
      rfl
    have hfresh3 : freshRid db3 := by
      intro r hr
      rw [hdb3] at hr ⊢
      simp only [] at hr ⊢
      rcases List.mem_append.mp hr with hr | hr
      · exact Nat.lt_succ_of_lt (hfresh2 r hr)
      · rw [List.mem_singleton.mp hr]
        exact Nat.lt_succ_self _
    have huniq3 : uniqRid db3 := by
      intro a ha b hb hab
      rw [hdb3] at ha hb
      refine uniq_append_single _ newm huniq2 ?_ a ha b hb hab
      intro r hr
      have := hfresh2 r hr
      rw [hnewm]
      simp only [defaultRow]
      omega
    have hP1_3 : ∀ r ∈ db3.rows, r.proposalId = pid →
        r.code = StdReqCode.gtQuarterly → r.isDeleted = true := by
      intro r hr hpid hcode
      rw [hdb3] at hr
      rcases List.mem_append.mp hr with hr | hr
      · exact hP1_2 r hr hpid hcode
      · rw [List.mem_singleton.mp hr] at hcode
        rw [hnewm] at hcode
        exact absurd hcode (by simp [defaultRow])
    have hMkey3 : db3.rows.filter (keyFilter pid .gtMonthly) = [newm] := by
      rw [hdb3]
      simp only []
      rw [List.filter_append]
      have h1 : (db.rows.map u_q).filter (keyFilter pid .gtMonthly) = [] :=
        hm2
      rw [h1]
      have h2 : keyFilter pid .gtMonthly newm = true := by
        rw [hnewm]
        simp [keyFilter, defaultRow]
      simp [h2]
    have hann3eq : db3.rows.filter (keyFilterND pid .gtAnnual)
        = db.rows.filter (keyFilterND pid .gtAnnual) := by
      rw [hdb3]
      simp only []
      rw [List.filter_append]
      have h2 : keyFilterND pid .gtAnnual newm = false := by
        rw [hnewm]
        simp [keyFilterND, defaultRow]
      rw [hAnnfilter2]
      simp [h2]
    obtain ⟨db', heq, hstruct, hannOut⟩ :=
      updateAnnualSection_master pid start db3 hfresh3
        (by rw [hann3eq]; exact hann)
    have hcounts := monthly_counts_through_annual pid start db3 db' hstruct
      newm hMkey3 (by rw [hnewm]; rfl)
    refine ⟨db', hrun.trans heq,
      quarterly_deleted_through_annual pid start db3 db' hstruct hP1_3,
      ?_, hcounts.2, hcounts.1, hannOut, ?_, wf_through_annual pid start
        db3 db' hstruct huniq3 hfresh3⟩
    · intro r hr
      have hmem3 : u_q r ∈ db3.rows := by
        rw [hdb3]
        exact List.mem_append_left _ (List.mem_map_of_mem u_q hr)
      obtain ⟨r', hr', hrid⟩ :=
        rids_through_annual pid start db3 db' hstruct (u_q r) hmem3
      exact ⟨r', hr', by rw [hrid, hqrid r]⟩
    · have hlen := length_through_annual pid start db3 db' hstruct
      rw [hann3eq] at hlen
      rw [hlen, hdb3]
      have h0 : (if ([] : List ReqRow).length = 0 then 1 else 0) = 1 := by
        simp
      rw [h0]
      simp only [List.length_append, List.length_map, List.length_singleton]
  | cons m tl =>
    cases tl with
    | cons b tl2 =>
      rw [hm] at hmono
      simp at hmono
    | nil =>
      have hmmem : m ∈ db.rows ∧ keyFilter pid .gtMonthly m = true :=
        List.mem_filter.mp (hm ▸ List.mem_cons_self m [])
      have hmcode : m.code = StdReqCode.gtMonthly := by
        have := hmmem.2
        simp only [keyFilter, Bool.and_eq_true, decide_eq_true_eq] at this
        exact this.2
      have hm2 : db2.rows.filter (keyFilter pid .gtMonthly) = [m] := by
        rw [hMfilter, hm]
      have hmmem2 : m ∈ db2.rows :=
        (List.mem_filter.mp (hm2 ▸ List.mem_cons_self m [])).1
      have hgoc := getOrCreate_of_filter_single pid .gtMonthly db2 m hm2
      set u_m : ReqRow → ReqRow := fun r =>
        if decide (r.rid = m.rid) = true then { r with isDeleted := false }
        else r with hu_m
      set dbX : ReqDB := ⟨(db.rows.map u_q).map u_m, db.nextRid⟩ with hdbX
      have hmrid : ∀ r, (u_m r).rid = r.rid := fun r =>
        rid_ite_isDeleted (fun x => decide (x.rid = m.rid)) false r
      have hrun : update_gross_turnover_requirements .grossTurnoverArrears
          .monthly pid start db = updateAnnualSection pid start dbX := by
        rw [run_arrears_monthly_eq, hdb2, hgoc]
        rfl
      have hfreshX : freshRid dbX := by
        intro r hr
        rw [hdbX] at hr ⊢
        simp only [] at hr ⊢
        exact fresh_of_map _ db.nextRid u_m hmrid hfresh2 r hr
      have huniqX : uniqRid dbX := by
        intro a ha b hb hab
        rw [hdbX] at ha hb
        exact uniq_of_map _ u_m hmrid huniq2 a ha b hb hab
      have humm : u_m m = { m with isDeleted := false } := by
        rw [hu_m]
        simp only []
        rw [if_pos (by simp)]
      have heqm : ∀ x ∈ db2.rows, x.rid = m.rid → x = m := by
        intro x hx hrid
        exact huniq2 x hx m hmmem2 hrid
      have hP1_X : ∀ r ∈ dbX.rows, r.proposalId = pid →
          r.code = StdReqCode.gtQuarterly → r.isDeleted = true := by
        intro r hr hpid hcode
        rw [hdbX] at hr
        obtain ⟨x, hx, rfl⟩ := List.mem_map.mp hr
        by_cases hridx : decide (x.rid = m.rid) = true
        · have hxm : x = m := heqm x hx (by simpa using hridx)
          rw [hu_m] at hcode
          simp only [] at hcode
          rw [if_pos hridx] at hcode
          rw [hxm] at hcode
          exact absurd hcode (by simp [hmcode])
        · rw [hu_m] at hpid hcode ⊢
          simp only [] at hpid hcode ⊢
          rw [if_neg hridx] at hpid hcode ⊢
          exact hP1_2 x hx hpid hcode
      have hMkeyX : dbX.rows.filter (keyFilter pid .gtMonthly)
          = [u_m m] := by
        rw [hdbX]
        simp only []
        rw [filter_map_pointwise u_m _ _ (fun x _ =>
          keyFilter_ite_isDeleted (fun y => decide (y.rid = m.rid)) false
            pid .gtMonthly x), hm2]
        rfl
      have hannXeq : dbX.rows.filter (keyFilterND pid .gtAnnual)
          = db.rows.filter (keyFilterND pid .gtAnnual) := by
        rw [hdbX]
        simp only []
        rw [filter_map_pointwise u_m _ _ ?_]
        · rw [hAnnfilter2]
          apply map_id_of_mem
          intro x hx
          have hx' := List.mem_filter.mp hx
          have hcode : x.code = StdReqCode.gtAnnual := by
            have := hx'.2
            simp only [keyFilterND, Bool.and_eq_true, decide_eq_true_eq]
              at this
            exact this.1.2
          rw [hu_m]
          simp only []
          rw [if_neg]
          simp only [decide_eq_true_eq]
          intro hridx
          have hxm : x = m := huniq x hx'.1 m hmmem.1 hridx
          rw [hxm] at hcode
          rw [hmcode] at hcode
          exact absurd hcode (by simp)
        · intro x hx
          by_cases hridx : decide (x.rid = m.rid) = true
          · have hxm : x = m := heqm x hx (by simpa using hridx)
            subst hxm
            rw [humm]
            simp [keyFilterND, hmcode]
          · rw [hu_m]
            simp only []
            rw [if_neg hridx]
      obtain ⟨db', heq, hstruct, hannOut⟩ :=
        updateAnnualSection_master pid start dbX hfreshX
          (by rw [hannXeq]; exact hann)
      have hcounts := monthly_counts_through_annual pid start dbX db'
        hstruct (u_m m) hMkeyX (by rw [humm])
      refine ⟨db', hrun.trans heq,
        quarterly_deleted_through_annual pid start dbX db' hstruct hP1_X,
        ?_, hcounts.2, hcounts.1, hannOut, ?_, wf_through_annual pid start
          dbX db' hstruct huniqX hfreshX⟩
      · intro r hr
        have hmemX : u_m (u_q r) ∈ dbX.rows := by
          rw [hdbX]
          exact List.mem_map_of_mem u_m (List.mem_map_of_mem u_q hr)
        obtain ⟨r', hr', hrid⟩ :=
          rids_through_annual pid start dbX db' hstruct (u_m (u_q r)) hmemX
        exact ⟨r', hr', by rw [hrid, hmrid, hqrid r]⟩
      · have hlen := length_through_annual pid start dbX db' hstruct
        rw [hannXeq] at hlen
        rw [hlen, hdbX]
        have h0 : (if ([m] : List ReqRow).length = 0 then 1 else 0) = 0 := by
          simp
        rw [h0]
        simp only [List.length_map]
        omega

end Requirements

/-! ## C6 -/

/-- C6: switching the gross-turnover in-arrears invoicing cadence to monthly
through update_gross_turnover_requirements soft-deletes the quarterly
gross-turnover requirements of the proposal without hard-deleting any row,
creates (or revives) the monthly requirement through get-or-create so that
exactly one non-deleted monthly requirement exists, and is idempotent on row
creation: running the same switch a second time succeeds and creates no
additional requirement rows. -/
theorem c6_update_gross_turnover_requirements_switch
    (pid : ℕ) (start : Date) (db : Requirements.ReqDB)
    (huniq : Requirements.uniqRid db) (hfresh : Requirements.freshRid db)
    (hmono : (db.rows.filter
      (Requirements.keyFilter pid .gtMonthly)).length ≤ 1)
    (hann : (db.rows.filter
      (Requirements.keyFilterND pid .gtAnnual)).length ≤ 1) :
    ∃ db' db'' : Requirements.ReqDB,
      Requirements.update_gross_turnover_requirements .grossTurnoverArrears
          .monthly pid start db = .ok db'
      ∧ (∀ r ∈ db'.rows, r.proposalId = pid →
          r.code = Requirements.StdReqCode.gtQuarterly → r.isDeleted = true)
      ∧ (∀ r ∈ db.rows, ∃ r' ∈ db'.rows, r'.rid = r.rid)
      ∧ (db'.rows.filter
          (Requirements.keyFilterND pid .gtMonthly)).length = 1
      ∧ Requirements.update_gross_turnover_requirements .grossTurnoverArrears
          .monthly pid start db' = .ok db''
      ∧ db''.rows.length = db'.rows.length := by
  obtain ⟨db', h1, h2, h3, h4, h5, h6, h7, h8, h9⟩ :=
    Requirements.run_arrears_monthly_master pid start db huniq hfresh
      hmono hann
  obtain ⟨db'', g1, g2, g3, g4, g5, g6, g7, g8, g9⟩ :=
    Requirements.run_arrears_monthly_master pid start db' h8 h9
      (Nat.le_of_eq h5) (Nat.le_of_eq h6)
  refine ⟨db', db'', h1, h2, h3, h4, g1, ?_⟩
  rw [g7, h5, h6]
  simp

/-- Witness for C6 at a concrete table with one quarterly requirement:
the switch succeeds, soft-deletes it, leaves exactly one non-deleted
monthly requirement, and a second run adds no rows. -/
theorem c6_witness :
    ∃ db' db'' : Requirements.ReqDB,
      Requirements.update_gross_turnover_requirements .grossTurnoverArrears
          .monthly 1 ⟨2024, 1, 1⟩ sampleReqDbC6 = .ok db'
      ∧ (∀ r ∈ db'.rows, r.proposalId = 1 →
          r.code = Requirements.StdReqCode.gtQuarterly → r.isDeleted = true)
      ∧ (∀ r ∈ sampleReqDbC6.rows, ∃ r' ∈ db'.rows, r'.rid = r.rid)
      ∧ (db'.rows.filter
          (Requirements.keyFilterND 1 .gtMonthly)).length = 1
      ∧ Requirements.update_gross_turnover_requirements .grossTurnoverArrears
          .monthly 1 ⟨2024, 1, 1⟩ db' = .ok db''
      ∧ db''.rows.length = db'.rows.length :=
  c6_update_gross_turnover_requirements_switch 1 ⟨2024, 1, 1⟩ sampleReqDbC6
    (by unfold Requirements.uniqRid; decide)
    (by unfold Requirements.freshRid; decide) (by decide) (by decide)

/-! ## C10 -/

/-- C10 is a code bug: when proposal 1 is reconciled under the
percentage-of-gross-turnover-in-advance charge method, the source applies
the soft-delete update for monthly and quarterly gross-turnover requirements
without a proposal filter, so the monthly requirement belonging to the
unrelated proposal 2 is also marked deleted.  The run evaluates to a table
in which the row of proposal 2 has is_deleted set, although proposal 2 was
never edited. -/
theorem c10_advance_soft_deletes_other_proposals :
    Requirements.update_gross_turnover_requirements .grossTurnoverAdvance
        .quarterly 1 ⟨2024, 1, 1⟩ sampleReqDbC10 =
      .ok ⟨[⟨1, 1, .gtQuarterly, true, none, none, false, none, none⟩,
        ⟨2, 2, .gtMonthly, true, none, none, false, none, none⟩,
        ⟨3, 1, .gtAnnual, false, some ⟨2025, 10, 31⟩, some ⟨2025, 7, 1⟩,
          true, some 3, some 1⟩], 4⟩
    ∧ sampleReqDbC10.rows.filter (fun r => decide (r.proposalId = 2)) =
      [⟨2, 2, .gtMonthly, false, none, none, false, none, none⟩] := by
  exact ⟨rfl, rfl⟩

end LeasesLicensing
